import Mathlib

/-!
# News aggregator: the ingestion pipeline of `cmd/news-scraper`

A shallow embedding of `src/cmd/news-scraper/main.go` (with the `News` model of
`src/pkg/models/news.go`) and the properties of the ingestion pipeline.

Modelling conventions
* The relational store behind `gorm.DB` is a list of `News` rows plus the
  generator of primary keys. The `unique` tag on `News.URL` is the unique index
  on `url`; `gorm.DeletedAt` makes every query ignore soft-deleted rows.
* Everything the outside world decides while one feed item is processed (a
  failing query, a failing insert, a failing Kafka write, the clock) is an
  explicit input, `ItemEnv`, given per item index.
* Library functions the code calls (`xml.Decoder.Decode`, `time.Parse`) are
  parameters.
* Every store access and every Kafka write is recorded in a trace of `Event`s,
  tagged with the index of the feed item being processed.
* The goroutines of `scrapeAllSources` are workers that make one store or Kafka
  access per atomic step; a cycle is run under a schedule that says which
  worker moves next, so every interleaving of the accesses is covered.
-/

namespace NewsAggregator

/-- Instants of `time.Time`, as a number of clock ticks. -/
abbrev Time := Int

/-! ## Data model -/

/-- Feed item, `type Item struct` of `news-scraper/main.go`. -/
structure Item where
  Title : String
  Description : String
  Link : String
  PubDate : String
  deriving DecidableEq, Repr

/-- Feed channel, `type Channel struct`. -/
structure Channel where
  Title : String
  Description : String
  Items : List Item
  deriving DecidableEq, Repr

/-- Feed document, `type RSS struct`. -/
structure RSS where
  Channel : Channel
  deriving DecidableEq, Repr

/-- Persisted article, `type News struct` of `pkg/models/news.go`. -/
structure News where
  ID : Nat
  Title : String
  Description : String
  URL : String
  Source : String
  PublishedAt : Time
  CreatedAt : Time
  UpdatedAt : Time
  DeletedAt : Option Time
  deriving DecidableEq, Repr

/-- Kafka message, the two fields of `kafka.Message` that `sendToKafka` sets. -/
structure Message where
  Key : String
  Value : String
  deriving DecidableEq, Repr

/-! ## The store -/

/-- The `news` table: its rows in insertion order and the next generated primary key. -/
structure DB where
  rows : List News
  nextID : Nat
  deriving DecidableEq, Repr

/-- The urls of all rows of the table, soft-deleted rows included. -/
def DB.urls (db : DB) : List String :=
  db.rows.map News.URL

/-- No two rows of the table share a url. -/
def UrlUnique (db : DB) : Prop :=
  db.urls.Nodup

instance (db : DB) : Decidable (UrlUnique db) := by
  unfold UrlUnique; infer_instance

/-- Query `db.Where("url = ?", url).First(&existingNews)`: the first row with that url
that is not soft-deleted. -/
def DB.first (db : DB) (url : String) : Option News :=
  db.rows.find? (fun n => decide (n.URL = url) && n.DeletedAt.isNone)

/-- Why an insert failed. -/
inductive CreateError where
  /-- The unique index on `url` rejects the row. -/
  | duplicate
  /-- The insert fails for any other reason (store unavailable, ...). -/
  | unavailable
  deriving DecidableEq, Repr

/-- Insert `db.Create(&news)`. `fails` says that the store is unavailable for this
insert and `stamp` is the time gorm writes to `CreatedAt` and `UpdatedAt`. A row whose
url is already in the table is rejected by the unique index. On success the row gets the
next primary key and is appended. A failed insert leaves the table as it was, the key
generator included; a store that gives the key out before it refuses the row is covered
by `processItemSeq`. -/
def DB.create (db : DB) (news : News) (fails : Bool) (stamp : Time) :
    Except CreateError (News × DB) :=
  if fails then .error .unavailable
  else if news.URL ∈ db.urls then .error .duplicate
  else
    let saved : News := { news with ID := db.nextID, CreatedAt := stamp, UpdatedAt := stamp }
    .ok (saved, { rows := db.rows ++ [saved], nextID := db.nextID + 1 })

/-! ## Environment and trace -/

/-- What the outside world decides while one feed item is processed. -/
structure ItemEnv where
  /-- The lookup query returns a database error. -/
  lookupErr : Bool
  /-- The value of `time.Now()` read for this item. -/
  now : Time
  /-- The insert fails for a reason other than the unique index. -/
  createErr : Bool
  /-- The timestamp gorm gives the new row. -/
  stamp : Time
  /-- The call `kafka.WriteMessages` returns an error. -/
  publishErr : Bool
  deriving DecidableEq, Repr

/-- One access to the store or to Kafka. -/
inductive Op where
  /-- The lookup by url; `found` is `err == nil`. -/
  | lookup (url : String) (found : Bool)
  /-- The insert, with the row as stored on success and `none` as error on success. -/
  | create (news : News) (err : Option CreateError)
  /-- The write of one message to Kafka; `ok` is `err == nil`. -/
  | publish (msg : Message) (ok : Bool)
  deriving DecidableEq, Repr

/-- An access, tagged with the index of the feed item in whose iteration it happens. -/
structure Event where
  item : Nat
  op : Op
  deriving DecidableEq, Repr

/-! ## `sendToKafka` -/

/-- The message `sendToKafka` builds: key `fmt.Sprintf("news_%d", news.ID)` and value
`fmt.Sprintf` of the object template with `%d`, `%s`, `%s`, `%s`. -/
def kafkaMessage (news : News) : Message :=
  { Key := "news_" ++ toString news.ID
    Value := "\x7b\"id\":" ++ toString news.ID ++ ",\"title\":\"" ++ news.Title ++
      "\",\"url\":\"" ++ news.URL ++ "\",\"source\":\"" ++ news.Source ++ "\"\x7d" }

/-- Function `sendToKafka`: one write of the message; an error is logged only. -/
def sendToKafka (i : Nat) (news : News) (publishErr : Bool) : List Event :=
  [⟨i, .publish (kafkaMessage news) (!publishErr)⟩]

/-! ## `scrapeSource` -/

/-- The publish date of an item: `time.Now()`, replaced by the parsed `PubDate` when it
is non-empty and parses (`parseRFC1123` is `time.Parse(time.RFC1123, ·)`). -/
def pubTime (parseRFC1123 : String → Option Time) (item : Item) (now : Time) : Time :=
  if item.PubDate ≠ "" then
    match parseRFC1123 item.PubDate with
    | some parsed => parsed
    | none => now
  else now

/-- The row `scrapeSource` builds for an item, before it is saved. -/
def mkNews (parseRFC1123 : String → Option Time) (source : String) (item : Item)
    (now : Time) : News :=
  { ID := 0
    Title := item.Title
    Description := item.Description
    URL := item.Link
    Source := source
    PublishedAt := pubTime parseRFC1123 item now
    CreatedAt := 0
    UpdatedAt := 0
    DeletedAt := none }

/-- The lookup of `scrapeSource`: `err == nil` of the `First` query. -/
def lookupFound (db : DB) (url : String) (lookupErr : Bool) : Bool :=
  !lookupErr && (db.first url).isSome

/-- One iteration of the loop over `rss.Channel.Items` in `scrapeSource`, for the item
of index `i`. -/
def processItem (parseRFC1123 : String → Option Time) (source : String) (i : Nat)
    (item : Item) (env : ItemEnv) (db : DB) : DB × List Event :=
  if item.Link = "" ∨ item.Title = "" then (db, [])
  else if lookupFound db item.Link env.lookupErr then
    (db, [⟨i, .lookup item.Link true⟩])
  else
    let news := mkNews parseRFC1123 source item env.now
    match db.create news env.createErr env.stamp with
    | .error e => (db, [⟨i, .lookup item.Link false⟩, ⟨i, .create news (some e)⟩])
    | .ok (saved, db') =>
      (db', [⟨i, .lookup item.Link false⟩, ⟨i, .create saved none⟩] ++
        sendToKafka i saved env.publishErr)

/-- The loop `for _, item := range rss.Channel.Items`, from index `i` on. -/
def scrapeItems (parseRFC1123 : String → Option Time) (source : String)
    (env : Nat → ItemEnv) : Nat → List Item → DB → DB × List Event
  | _, [], db => (db, [])
  | i, item :: rest, db =>
    let r := processItem parseRFC1123 source i item (env i) db
    let r' := scrapeItems parseRFC1123 source env (i + 1) rest r.1
    (r'.1, r.2 ++ r'.2)

/-- Result of `http.Get(url)`: an error, or a response with its status code and body. -/
inductive FetchResult where
  | netError
  | response (status : Nat) (body : String)
  deriving DecidableEq, Repr

/-- Function `scrapeSource` after the call of `http.Get`: `xmlDecode` is
`xml.NewDecoder(resp.Body).Decode(&rss)`. -/
def scrapeSource (xmlDecode : String → Option RSS) (parseRFC1123 : String → Option Time)
    (fetched : FetchResult) (env : Nat → ItemEnv) (db : DB) : DB × List Event :=
  match fetched with
  | .netError => (db, [])
  | .response _ body =>
    match xmlDecode body with
    | none => (db, [])
    | some rss => scrapeItems parseRFC1123 rss.Channel.Title env 0 rss.Channel.Items db

/-! ## Reading a trace -/

/-- The row an event inserted, if it is a successful insert. -/
def Op.created : Op → Option News
  | .create news none => some news
  | _ => none

/-- The message an event handed to Kafka, if it is a publish. -/
def Op.message : Op → Option Message
  | .publish msg _ => some msg
  | _ => none

/-- The access is an insert that failed for a reason other than the unique index. -/
def Op.unavailable : Op → Bool
  | .create _ (some .unavailable) => true
  | _ => false

/-- The access is an insert that failed, for whatever reason. -/
def Op.createFailed : Op → Bool
  | .create _ (some _) => true
  | _ => false

/-- The accesses of a trace without the item tags. -/
def ops (trace : List Event) : List Op :=
  trace.map Event.op

/-- The world as the loop sees it when the item of index `k` is taken out of the feed:
what happened while a later item was processed now happens one index earlier. -/
def dropEnv (k : Nat) (env : Nat → ItemEnv) : Nat → ItemEnv :=
  fun j => if j < k then env j else env (j + 1)

/-- The rows inserted according to a trace, in order. -/
def persisted (trace : List Event) : List News :=
  trace.filterMap (fun e => e.op.created)

/-- The messages handed to Kafka according to a trace, in order. -/
def published (trace : List Event) : List Message :=
  trace.filterMap (fun e => e.op.message)

/-- A feed item with a non-empty title and a non-empty link. -/
def Item.wellFormed (item : Item) : Prop :=
  item.Title ≠ "" ∧ item.Link ≠ ""

instance (item : Item) : Decidable item.wellFormed := by
  unfold Item.wellFormed; infer_instance

/-- The row an insert stores for an item. -/
def savedNews (parseRFC1123 : String → Option Time) (source : String) (item : Item)
    (env : ItemEnv) (db : DB) : News :=
  { mkNews parseRFC1123 source item env.now with
    ID := db.nextID, CreatedAt := env.stamp, UpdatedAt := env.stamp }

/-- The table after an item has been inserted. -/
def insertedDB (parseRFC1123 : String → Option Time) (source : String) (item : Item)
    (env : ItemEnv) (db : DB) : DB :=
  { rows := db.rows ++ [savedNews parseRFC1123 source item env db], nextID := db.nextID + 1 }

/-- The four ways one iteration of the loop can go. -/
inductive ItemOutcome (parseRFC1123 : String → Option Time) (source : String) (i : Nat)
    (item : Item) (env : ItemEnv) (db : DB) : DB × List Event → Prop
  | malformed (h : item.Link = "" ∨ item.Title = "") :
      ItemOutcome parseRFC1123 source i item env db (db, [])
  | known (hl : item.Link ≠ "") (ht : item.Title ≠ "")
      (hf : lookupFound db item.Link env.lookupErr = true) :
      ItemOutcome parseRFC1123 source i item env db (db, [⟨i, .lookup item.Link true⟩])
  | rejected (hl : item.Link ≠ "") (ht : item.Title ≠ "")
      (hf : lookupFound db item.Link env.lookupErr = false) (e : CreateError)
      (he : (e = .unavailable ∧ env.createErr = true) ∨
        (e = .duplicate ∧ env.createErr = false ∧ item.Link ∈ db.urls)) :
      ItemOutcome parseRFC1123 source i item env db
        (db, [⟨i, .lookup item.Link false⟩,
          ⟨i, .create (mkNews parseRFC1123 source item env.now) (some e)⟩])
  | saved (hl : item.Link ≠ "") (ht : item.Title ≠ "")
      (hf : lookupFound db item.Link env.lookupErr = false)
      (hc : env.createErr = false) (hn : item.Link ∉ db.urls) :
      ItemOutcome parseRFC1123 source i item env db
        (insertedDB parseRFC1123 source item env db,
          [⟨i, .lookup item.Link false⟩,
            ⟨i, .create (savedNews parseRFC1123 source item env db) none⟩,
            ⟨i, .publish (kafkaMessage (savedNews parseRFC1123 source item env db))
              (!env.publishErr)⟩])

/-- The fields of a row that come from the feed item. -/
def News.fromItem (n : News) : String × String × String :=
  (n.Title, n.Description, n.URL)

/-- The fields of a feed item that go to the row. -/
def Item.toRow (item : Item) : String × String × String :=
  (item.Title, item.Description, item.Link)

/-! ## Concurrent source workers

`scrapeAllSources` starts one goroutine per non-empty source and waits for all of them.
The goroutines share the store, so a cycle is an interleaving of their accesses. A worker
is `scrapeSource` cut at its accesses: the lookup, the insert and the publish of an item
are separate atomic steps. -/

/-- A configured source together with what the outside world gives the worker that
scrapes it: the result of `http.Get` and the per-item environment. -/
structure Source where
  url : String
  fetched : FetchResult
  env : Nat → ItemEnv

/-- Where a worker stands inside the iteration of its current item. -/
inductive Pc where
  /-- At the head of the loop body, before the lookup. -/
  | lookup
  /-- The lookup found nothing; before `db.Create`. -/
  | create
  /-- The row is stored; before `sendToKafka`. -/
  | publish (saved : News)
  deriving DecidableEq, Repr

/-- The state of one goroutine running `scrapeSource(url)`. -/
structure Worker where
  /-- The argument of `scrapeSource`. -/
  url : String
  /-- The per-item environment of this worker. -/
  env : Nat → ItemEnv
  /-- The channel title of the decoded feed. -/
  source : String
  /-- The index of the current item. -/
  idx : Nat
  /-- The items not yet processed; the head is the current item. -/
  items : List Item
  pc : Pc

/-- The worker has left the loop: `scrapeSource` has returned. -/
def Worker.finished (w : Worker) : Bool :=
  w.items.isEmpty

/-- The worker for a source once `http.Get` and the decoder have returned: on a fetch or
decode error `scrapeSource` returns at once, otherwise the loop starts at item 0. -/
def Worker.start (xmlDecode : String → Option RSS) (s : Source) : Worker :=
  match s.fetched with
  | .netError => { url := s.url, env := s.env, source := "", idx := 0, items := [], pc := .lookup }
  | .response _ body =>
    match xmlDecode body with
    | none => { url := s.url, env := s.env, source := "", idx := 0, items := [], pc := .lookup }
    | some rss =>
      { url := s.url, env := s.env, source := rss.Channel.Title, idx := 0,
        items := rss.Channel.Items, pc := .lookup }

/-- One atomic step of a worker on the shared table: the new state of the worker, the
new table and the access made. `none` when the worker has finished. -/
def Worker.step (parseRFC1123 : String → Option Time) (w : Worker) (db : DB) :
    Option (Worker × DB × List Event) :=
  match w.items with
  | [] => none
  | item :: rest =>
    let next : Worker := { w with idx := w.idx + 1, items := rest, pc := .lookup }
    match w.pc with
    | .lookup =>
      if item.Link = "" ∨ item.Title = "" then some (next, db, [])
      else if lookupFound db item.Link (w.env w.idx).lookupErr then
        some (next, db, [⟨w.idx, .lookup item.Link true⟩])
      else some ({ w with pc := .create }, db, [⟨w.idx, .lookup item.Link false⟩])
    | .create =>
      let news := mkNews parseRFC1123 w.source item (w.env w.idx).now
      match db.create news (w.env w.idx).createErr (w.env w.idx).stamp with
      | .error e => some (next, db, [⟨w.idx, .create news (some e)⟩])
      | .ok (saved, db') =>
        some ({ w with pc := .publish saved }, db', [⟨w.idx, .create saved none⟩])
    | .publish saved => some (next, db, sendToKafka w.idx saved (w.env w.idx).publishErr)

/-- Let one worker make `n` steps on its own; it stays where it is once finished. -/
def Worker.run (parseRFC1123 : String → Option Time) :
    Nat → Worker → DB → Worker × DB × List Event
  | 0, w, db => (w, db, [])
  | n + 1, w, db =>
    match w.step parseRFC1123 db with
    | none => (w, db, [])
    | some (w', db', evs) =>
      let r := Worker.run parseRFC1123 n w' db'
      (r.1, r.2.1, evs ++ r.2.2)

/-- The state of a cycle: the workers, the table, and the accesses made so far, each
tagged with the index of the worker that made it. -/
structure CycleState where
  workers : List Worker
  db : DB
  trace : List (Nat × Event)

/-- Let worker `k` make its next step, if it exists and has not finished. -/
def stepAt (parseRFC1123 : String → Option Time) (k : Nat) (st : CycleState) : CycleState :=
  match st.workers[k]? with
  | none => st
  | some w =>
    match w.step parseRFC1123 st.db with
    | none => st
    | some (w', db', evs) =>
      { workers := st.workers.set k w', db := db', trace := st.trace ++ evs.map (fun e => (k, e)) }

/-- Run the workers in the order a schedule gives: each entry lets one worker make one
step. -/
def runSchedule (parseRFC1123 : String → Option Time) (sched : List Nat) (st : CycleState) :
    CycleState :=
  sched.foldl (fun st k => stepAt parseRFC1123 k st) st

/-- The goroutines `scrapeAllSources` starts: one per non-empty source, in order. -/
def launch (xmlDecode : String → Option RSS) (sources : List Source) : List Worker :=
  (sources.filter (fun s => decide (s.url ≠ ""))).map (Worker.start xmlDecode)

/-- Function `scrapeAllSources` under a schedule of its goroutines: the state the cycle has
reached when the schedule is used up. -/
def scrapeAllSources (xmlDecode : String → Option RSS) (parseRFC1123 : String → Option Time)
    (sources : List Source) (sched : List Nat) (db : DB) : CycleState :=
  runSchedule parseRFC1123 sched { workers := launch xmlDecode sources, db := db, trace := [] }

/-- The call `wg.Wait()` returns: every goroutine has finished. -/
def CycleState.complete (st : CycleState) : Prop :=
  ∀ w ∈ st.workers, w.finished = true

instance (st : CycleState) : Decidable st.complete := by
  unfold CycleState.complete; infer_instance

/-- The events of a cycle without the worker tags. -/
def CycleState.events (st : CycleState) : List Event :=
  st.trace.map Prod.snd

/-- A sequence of cycles, one after the other: each with its sources and its schedule. -/
def runCycles (xmlDecode : String → Option RSS) (parseRFC1123 : String → Option Time) :
    List (List Source × List Nat) → DB → DB
  | [], db => db
  | (sources, sched) :: rest, db =>
    runCycles xmlDecode parseRFC1123 rest
      (scrapeAllSources xmlDecode parseRFC1123 sources sched db).db

/-! ## Removing a worker from a cycle -/

/-- The index a worker has once the worker of index `f` is taken out of the list. -/
def reindex (f k : Nat) : Nat :=
  if k < f then k else k - 1

/-- A schedule for the workers without worker `f`: the turns of `f` are dropped and the
other workers keep their turns. -/
def dropWorker (f : Nat) (sched : List Nat) : List Nat :=
  (sched.filter (fun k => decide (k ≠ f))).map (reindex f)

/-- A schedule for the workers with one more worker at index `f`, which gets no turn. -/
def liftSchedule (f : Nat) (sched : List Nat) : List Nat :=
  sched.map (fun k => if k < f then k else k + 1)

/-- The state of a cycle without worker `f`. -/
def CycleState.without (f : Nat) (st : CycleState) : CycleState :=
  { workers := st.workers.eraseIdx f
    db := st.db
    trace := st.trace.map (fun p => (reindex f p.1, p.2)) }

/-- Two cycles have the same outcome: the same table, the same accesses in the same order
(hence the same rows inserted and the same messages published), and one is complete when
the other is. -/
def CycleState.sameOutcome (a b : CycleState) : Prop :=
  a.db = b.db ∧ a.events = b.events ∧ persisted a.events = persisted b.events ∧
    published a.events = published b.events ∧ (a.complete ↔ b.complete)

/-! ## Publish failures -/

/-- The world in which every Kafka write succeeds and nothing else differs. -/
def allPublishOk (env : Nat → ItemEnv) : Nat → ItemEnv :=
  fun i => { env i with publishErr := false }

/-- The access as it is recorded when the Kafka write succeeds. -/
def Op.publishOk : Op → Op
  | .publish msg _ => .publish msg true
  | op => op

/-- The event as it is recorded when the Kafka write succeeds. -/
def Event.publishOk (e : Event) : Event :=
  { e with op := e.op.publishOk }

/-- The access is a Kafka write that failed. -/
def Op.publishFailed : Op → Bool
  | .publish _ false => true
  | _ => false

/-! ## Configuration: the source list -/

/-- Split a text at every occurrence of a separator character, as `strings.Split` does
for a one-character separator: the empty text gives one empty piece. -/
def splitOnChar (sep : Char) : List Char → List (List Char)
  | [] => [[]]
  | c :: rest =>
    if c = sep then [] :: splitOnChar sep rest
    else
      match splitOnChar sep rest with
      | [] => [[c]]
      | piece :: pieces => (c :: piece) :: pieces

/-- Function `getEnv` of `pkg/config`: the value of the variable, or the fallback when the
variable is unset or empty (`os.Getenv` gives the empty string for an unset variable). -/
def getEnv (environ : String → String) (key fallback : String) : String :=
  if environ key ≠ "" then environ key else fallback

/-- The field `NewsSources` that `config.Load` computes:
`strings.Split(getEnv("NEWS_SOURCES", ""), ",")`. -/
def loadNewsSources (environ : String → String) : List String :=
  (splitOnChar ',' (getEnv environ "NEWS_SOURCES" "").data).map String.mk

/-- The urls with which `scrapeAllSources` calls `scrapeSource`, one per goroutine. -/
def scrapedUrls (xmlDecode : String → Option RSS) (sources : List Source) : List String :=
  (launch xmlDecode sources).map Worker.url

/-! ## Pagination of the read API -/

/-- The value of a machine `int` (64 bits, two's complement) after an arithmetic
operation whose mathematical result is `x`. -/
def wrapInt (x : Int) : Int :=
  (x + 2 ^ 63) % 2 ^ 64 - 2 ^ 63

/-- The largest `int`, which `strconv.Atoi` returns for a text above the range. -/
def maxInt : Int := 2 ^ 63 - 1

/-- The smallest `int`, which `strconv.Atoi` returns for a text below the range. -/
def minInt : Int := -(2 ^ 63)

/-- The window `getNews` and `getNewsBySource` compute from the parsed `page` and `limit`:
the page and limit they use and the offset `(page - 1) * limit` in `int` arithmetic. -/
structure Window where
  page : Int
  limit : Int
  offset : Int
  deriving DecidableEq, Repr

/-- The normalisation of `page` and `limit` at the head of `getNews` and of
`getNewsBySource` (the two functions have the same lines). -/
def pageWindow (page limit : Int) : Window :=
  let page := if page < 1 then 1 else page
  let limit := if limit < 1 ∨ limit > 100 then 20 else limit
  { page := page, limit := limit, offset := wrapInt (wrapInt (page - 1) * limit) }

/-! ## The scheduler `startScraping`

One goroutine runs `startScraping`: it calls `scrapeAllSources` once, then loops on a
`select` over the ticker channel and the shutdown channel, and calls `scrapeAllSources`
from inside the loop. The ticker channel holds at most one tick; a tick that fires while
the channel is full is dropped. -/

/-- Where the goroutine of `startScraping` stands. -/
inductive SchedPc where
  /-- Inside a call of `scrapeAllSources`, which has not returned yet. -/
  | cycle
  /-- Blocked in the `select`. -/
  | select
  /-- The function has returned. -/
  | returned
  deriving DecidableEq, Repr

/-- The state of the scheduler: the goroutine and the ticker channel. -/
structure Scheduler where
  pc : SchedPc
  /-- The channel `ticker.C` holds a tick. -/
  tickPending : Bool
  deriving DecidableEq, Repr

/-- What can happen next to the scheduler. -/
inductive SchedInput where
  /-- The interval has elapsed: the ticker sends on `ticker.C`, or drops the tick when the
  channel is full. -/
  | tick
  /-- The `select` receives the tick from `ticker.C`. -/
  | receiveTick
  /-- The `select` receives from `s.shutdown`. -/
  | receiveShutdown
  /-- The running call of `scrapeAllSources` returns. -/
  | cycleReturns
  deriving DecidableEq, Repr

/-- The beginning or the end of a call of `scrapeAllSources`. -/
inductive SchedAction where
  | callBegins
  | callReturns
  deriving DecidableEq, Repr

/-- One transition of the scheduler and the calls it begins or ends. An input that is not
possible where the goroutine stands changes nothing. -/
def Scheduler.step (s : Scheduler) : SchedInput → Scheduler × List SchedAction
  | .tick =>
    match s.pc with
    | .returned => (s, [])
    | _ => ({ s with tickPending := true }, [])
  | .receiveTick =>
    match s.pc, s.tickPending with
    | .select, true => ({ pc := .cycle, tickPending := false }, [.callBegins])
    | _, _ => (s, [])
  | .receiveShutdown =>
    match s.pc with
    | .select => ({ s with pc := .returned }, [])
    | _ => (s, [])
  | .cycleReturns =>
    match s.pc with
    | .cycle => ({ s with pc := .select }, [.callReturns])
    | _ => (s, [])

/-- The calls begun and ended from a state of the scheduler under a sequence of inputs. -/
def Scheduler.runFrom (s : Scheduler) : List SchedInput → List SchedAction
  | [] => []
  | i :: rest => (s.step i).2 ++ Scheduler.runFrom (s.step i).1 rest

/-- Function `startScraping`: the initial call of `scrapeAllSources`, then the loop. -/
def startScraping (inputs : List SchedInput) : List SchedAction :=
  .callBegins :: Scheduler.runFrom { pc := .cycle, tickPending := false } inputs

/-- The number of calls of `scrapeAllSources` in progress after each action, from `d`
calls in progress. -/
def depths : Nat → List SchedAction → List Nat
  | _, [] => []
  | d, .callBegins :: rest => (d + 1) :: depths (d + 1) rest
  | d, .callReturns :: rest => (d - 1) :: depths (d - 1) rest

/-- The number of calls of `scrapeAllSources` in progress where the goroutine stands. -/
def SchedPc.inProgress : SchedPc → Nat
  | .cycle => 1
  | _ => 0

/-- Two calls of `scrapeAllSources` are in progress at some moment: one has begun before
the previous one has returned. -/
def cyclesOverlap (actions : List SchedAction) : Prop :=
  ∃ d ∈ depths 0 actions, 2 ≤ d

instance (actions : List SchedAction) : Decidable (cyclesOverlap actions) := by
  unfold cyclesOverlap; infer_instance

/-! ## Racing workers -/

/-- The ways one step of a worker can go, with the state it leads to. -/
inductive StepOutcome (parseRFC1123 : String → Option Time) (w : Worker) (db : DB) :
    Worker × DB × List Event → Prop
  | skip (item : Item) (rest : List Item) (hi : w.items = item :: rest) (hpc : w.pc = .lookup)
      (hm : item.Link = "" ∨ item.Title = "") :
      StepOutcome parseRFC1123 w db
        ({ w with idx := w.idx + 1, items := rest, pc := .lookup }, db, [])
  | known (item : Item) (rest : List Item) (hi : w.items = item :: rest) (hpc : w.pc = .lookup)
      (hw : item.wellFormed)
      (hf : lookupFound db item.Link (w.env w.idx).lookupErr = true) :
      StepOutcome parseRFC1123 w db
        ({ w with idx := w.idx + 1, items := rest, pc := .lookup }, db,
          [⟨w.idx, .lookup item.Link true⟩])
  | miss (item : Item) (rest : List Item) (hi : w.items = item :: rest) (hpc : w.pc = .lookup)
      (hw : item.wellFormed)
      (hf : lookupFound db item.Link (w.env w.idx).lookupErr = false) :
      StepOutcome parseRFC1123 w db
        ({ w with pc := .create }, db, [⟨w.idx, .lookup item.Link false⟩])
  | rejected (item : Item) (rest : List Item) (hi : w.items = item :: rest)
      (hpc : w.pc = .create) (e : CreateError)
      (he : (e = .unavailable ∧ (w.env w.idx).createErr = true) ∨
        (e = .duplicate ∧ (w.env w.idx).createErr = false ∧ item.Link ∈ db.urls)) :
      StepOutcome parseRFC1123 w db
        ({ w with idx := w.idx + 1, items := rest, pc := .lookup }, db,
          [⟨w.idx, .create (mkNews parseRFC1123 w.source item (w.env w.idx).now) (some e)⟩])
  | saved (item : Item) (rest : List Item) (hi : w.items = item :: rest)
      (hpc : w.pc = .create) (hc : (w.env w.idx).createErr = false)
      (hn : item.Link ∉ db.urls) :
      StepOutcome parseRFC1123 w db
        ({ w with pc := .publish (savedNews parseRFC1123 w.source item (w.env w.idx) db) },
          insertedDB parseRFC1123 w.source item (w.env w.idx) db,
          [⟨w.idx, .create (savedNews parseRFC1123 w.source item (w.env w.idx) db) none⟩])
  | sent (item : Item) (rest : List Item) (hi : w.items = item :: rest) (row : News)
      (hpc : w.pc = .publish row) :
      StepOutcome parseRFC1123 w db
        ({ w with idx := w.idx + 1, items := rest, pc := .lookup }, db,
          sendToKafka w.idx row (w.env w.idx).publishErr)

/-- The row a worker is about to hand to `sendToKafka`: it has stored the row and not yet
published it. -/
def Worker.pending (w : Worker) : List News :=
  match w.items, w.pc with
  | _ :: _, .publish row => [row]
  | _, _ => []

/-- The row worker `k` hands to `sendToKafka` if it moves next. -/
def sentAt (k : Nat) (st : CycleState) : List News :=
  match st.workers[k]? with
  | none => []
  | some w => w.pending

/-- The rows with which `sendToKafka` is called during a schedule, in order. -/
def sentNews (parseRFC1123 : String → Option Time) : List Nat → CycleState → List News
  | [], _ => []
  | k :: sched, st => sentAt k st ++ sentNews parseRFC1123 sched (stepAt parseRFC1123 k st)

/-- The number of rows with url `u` in a list. -/
def countUrl (u : String) (rows : List News) : Nat :=
  (rows.filter (fun n => decide (n.URL = u))).length

/-- The number of workers that have stored a row with url `u` and not yet published it. -/
def pendingCount (u : String) (workers : List Worker) : Nat :=
  (workers.map (fun w => countUrl u w.pending)).sum

/-- The table of a cycle is the initial table `db₀` followed by the rows inserted during
the cycle, whose urls are pairwise distinct and were not in the initial table. -/
def CycleState.rowsFrom (st : CycleState) (db₀ : DB) : Prop :=
  st.db.rows = db₀.rows ++ persisted st.events ∧
    ((persisted st.events).map News.URL).Nodup ∧
    ∀ v ∈ (persisted st.events).map News.URL, v ∉ db₀.urls

/-- What makes sure that a url `u` listed by a source ends up in the table: no insert
fails for a reason other than the unique index, neither in what is to come nor in the
trace so far; a worker that is about to publish has its current item's link in the table;
and `u` is in the table or some worker still has a well-formed item with link `u` to
process. -/
def CycleState.live (u : String) (st : CycleState) : Prop :=
  (∀ (j : Nat) (w : Worker), st.workers[j]? = some w → ∀ i, (w.env i).createErr = false) ∧
    (∀ (j : Nat) (w : Worker), st.workers[j]? = some w → ∀ row item rest,
      w.pc = .publish row → w.items = item :: rest → item.Link ∈ st.db.urls) ∧
    (u ∈ st.db.urls ∨ ∃ (j : Nat) (w : Worker), st.workers[j]? = some w ∧
      ∃ item ∈ w.items, item.wellFormed ∧ item.Link = u) ∧
    (∀ e ∈ st.events, ∀ n err, e.op = .create n (some err) → err = .duplicate)

/-- The rows with which `sendToKafka` is called during a cycle of `scrapeAllSources`, in
order. -/
def sendToKafkaCalls (xmlDecode : String → Option RSS) (parseRFC1123 : String → Option Time)
    (sources : List Source) (sched : List Nat) (db : DB) : List News :=
  sentNews parseRFC1123 sched { workers := launch xmlDecode sources, db := db, trace := [] }

/-! ## Stores that consume keys on a refused insert

`DB.create` leaves the key generator as it was when the insert fails. A store may instead
give the key out before it refuses the row: PostgreSQL, which the program opens, takes the
next value of the sequence before it checks the unique index, so a refused insert consumes
one key and later rows get later ids. The number of keys a failed insert consumes is an
input here, given per item index. -/

/-- The table after the key generator has given out `n` more keys. -/
def DB.skipKeys (db : DB) (n : Nat) : DB :=
  { db with nextID := db.nextID + n }

/-- One iteration of the loop of `scrapeSource` against a store whose key generator
advances by `skip` when the insert fails. With `skip = 0` this is `processItem`. -/
def processItemSeq (parseRFC1123 : String → Option Time) (source : String) (skip : Nat)
    (i : Nat) (item : Item) (env : ItemEnv) (db : DB) : DB × List Event :=
  let r := processItem parseRFC1123 source i item env db
  if r.2.any (fun e => e.op.createFailed) then (r.1.skipKeys skip, r.2) else r

/-- The loop of `scrapeSource` against a store whose key generator advances by `skip i`
when the insert for the item of index `i` fails. -/
def scrapeItemsSeq (parseRFC1123 : String → Option Time) (source : String)
    (env : Nat → ItemEnv) (skip : Nat → Nat) : Nat → List Item → DB → DB × List Event
  | _, [], db => (db, [])
  | i, item :: rest, db =>
    let r := processItemSeq parseRFC1123 source (skip i) i item (env i) db
    let r' := scrapeItemsSeq parseRFC1123 source env skip (i + 1) rest r.1
    (r'.1, r.2 ++ r'.2)

/-- Function `scrapeSource` against a store whose key generator advances by `skip i` when
the insert for the item of index `i` fails. With `skip` constantly 0 this is
`scrapeSource`. -/
def scrapeSourceSeq (xmlDecode : String → Option RSS) (parseRFC1123 : String → Option Time)
    (fetched : FetchResult) (env : Nat → ItemEnv) (skip : Nat → Nat) (db : DB) :
    DB × List Event :=
  match fetched with
  | .netError => (db, [])
  | .response _ body =>
    match xmlDecode body with
    | none => (db, [])
    | some rss =>
      scrapeItemsSeq parseRFC1123 rss.Channel.Title env skip 0 rss.Channel.Items db

/-- The row without the id the store assigned. -/
def News.withoutID (n : News) : News :=
  { n with ID := 0 }

/-- The access without the id the store assigned: the row of an insert loses its id, and
a publish loses its message, which is built from the id. -/
def Op.withoutID : Op → Op
  | .lookup url found => .lookup url found
  | .create news err => .create news.withoutID err
  | .publish _ ok => .publish { Key := "", Value := "" } ok

/-- Two tables have the same rows up to the ids the store assigned. -/
def DB.sameRows (a b : DB) : Prop :=
  a.rows.map News.withoutID = b.rows.map News.withoutID

instance (a b : DB) : Decidable (a.sameRows b) := by
  unfold DB.sameRows; infer_instance

/-! ## JSON objects

A decoder for the JSON texts (RFC 8259) that are one object whose members are strings or
non-negative integers, the shape of the outbound event payload. -/

/-- A member value of the payload: an integer or a string. -/
inductive JsonValue where
  | num (n : Nat)
  | str (s : String)
  deriving DecidableEq, Repr

/-- The quotation mark. -/
def jsonQuote : Char := Char.ofNat 34

/-- The reverse solidus, which starts an escape. -/
def jsonEscape : Char := Char.ofNat 92

/-- Skip JSON whitespace: space, tab, line feed, carriage return. -/
def skipWs : List Char → List Char
  | [] => []
  | c :: rest =>
    if c.toNat = 32 ∨ c.toNat = 9 ∨ c.toNat = 10 ∨ c.toNat = 13 then skipWs rest else c :: rest

/-- The value of a hexadecimal digit. -/
def hexValue (c : Char) : Option Nat :=
  if 48 ≤ c.toNat ∧ c.toNat ≤ 57 then some (c.toNat - 48)
  else if 97 ≤ c.toNat ∧ c.toNat ≤ 102 then some (c.toNat - 87)
  else if 65 ≤ c.toNat ∧ c.toNat ≤ 70 then some (c.toNat - 55)
  else none

/-- The character a one-letter escape stands for. -/
def unescape (c : Char) : Option Char :=
  if c.toNat = 34 then some (Char.ofNat 34)
  else if c.toNat = 92 then some (Char.ofNat 92)
  else if c.toNat = 47 then some (Char.ofNat 47)
  else if c.toNat = 98 then some (Char.ofNat 8)
  else if c.toNat = 102 then some (Char.ofNat 12)
  else if c.toNat = 110 then some (Char.ofNat 10)
  else if c.toNat = 114 then some (Char.ofNat 13)
  else if c.toNat = 116 then some (Char.ofNat 9)
  else none

/-- Read a JSON string after its opening quotation mark: the decoded characters (in
reverse in `acc`) and the text after the closing quotation mark. An unescaped quotation
mark ends the string; control characters must be escaped. -/
def readString : List Char → List Char → Option (List Char × List Char)
  | _, [] => none
  | acc, [c] => if c = jsonQuote then some (acc.reverse, []) else none
  | acc, c :: d :: rest =>
    if c = jsonQuote then some (acc.reverse, d :: rest)
    else if c = jsonEscape then
      if d.toNat = 117 then
        match rest with
        | h₁ :: h₂ :: h₃ :: h₄ :: rest' =>
          match hexValue h₁, hexValue h₂, hexValue h₃, hexValue h₄ with
          | some a, some b, some c', some d' =>
            readString (Char.ofNat (((a * 16 + b) * 16 + c') * 16 + d') :: acc) rest'
          | _, _, _, _ => none
        | _ => none
      else
        match unescape d with
        | some u => readString (u :: acc) rest
        | none => none
    else if c.toNat < 32 then none
    else readString (c :: acc) (d :: rest)

/-- Read a non-negative JSON integer: digits without a leading zero. -/
def readNat (l : List Char) : Option (Nat × List Char) :=
  let digits := l.takeWhile Char.isDigit
  if digits = [] then none
  else if 1 < digits.length ∧ digits.head? = some (Char.ofNat 48) then none
  else some (digits.foldl (fun n c => 10 * n + (c.toNat - 48)) 0, l.dropWhile Char.isDigit)

/-- Read a member value: a string or a non-negative integer. -/
def readValue : List Char → Option (JsonValue × List Char)
  | [] => none
  | c :: rest =>
    if c = jsonQuote then
      (readString [] rest).map (fun r => (JsonValue.str (String.mk r.1), r.2))
    else (readNat (c :: rest)).map (fun r => (JsonValue.num r.1, r.2))

/-- Read the members of an object up to and including the closing brace. -/
def readMembers : Nat → List Char → Option (List (String × JsonValue) × List Char)
  | 0, _ => none
  | fuel + 1, l =>
    match skipWs l with
    | [] => none
    | q :: rest =>
      if q = jsonQuote then
        match readString [] rest with
        | none => none
        | some (key, rest₁) =>
          match skipWs rest₁ with
          | [] => none
          | colon :: rest₂ =>
            if colon.toNat = 58 then
              match readValue (skipWs rest₂) with
              | none => none
              | some (v, rest₃) =>
                match skipWs rest₃ with
                | [] => none
                | sep :: rest₄ =>
                  if sep.toNat = 44 then
                    (readMembers fuel rest₄).map (fun r => ((String.mk key, v) :: r.1, r.2))
                  else if sep.toNat = 125 then some ([(String.mk key, v)], rest₄)
                  else none
            else none
      else none

/-- Decode a JSON text that is one object with string and integer members; `none` when
the text is not such a JSON text. -/
def decodeObject (s : String) : Option (List (String × JsonValue)) :=
  match skipWs s.data with
  | [] => none
  | c :: rest =>
    if c.toNat = 123 then
      match skipWs rest with
      | [] => none
      | d :: rest' =>
        if d.toNat = 125 then (if skipWs rest' = [] then some [] else none)
        else
          match readMembers s.length (d :: rest') with
          | none => none
          | some (members, tail) => if skipWs tail = [] then some members else none
    else none

/-- The payload the specification asks for, decoded: the four members of an article. -/
def expectedPayload (news : News) : List (String × JsonValue) :=
  [("id", .num news.ID), ("title", .str news.Title), ("url", .str news.URL),
    ("source", .str news.Source)]

/-! ## Sample data -/

/-- A row of the table with the given key, title and url. -/
def sampleRow (id : Nat) (title url : String) : News :=
  { ID := id, Title := title, Description := "", URL := url, Source := "Chan",
    PublishedAt := 0, CreatedAt := 0, UpdatedAt := 0, DeletedAt := none }

/-- A table with one article. -/
def sampleDB : DB :=
  { rows := [sampleRow 1 "Old" "https://a/1"], nextID := 2 }

/-- A feed with three items: one already stored, one with an empty link, one new. -/
def sampleFeed : RSS :=
  ⟨{ Title := "Chan", Description := "",
     Items := [⟨"Old", "", "https://a/1", ""⟩, ⟨"No link", "", "", ""⟩,
       ⟨"New", "fresh", "https://a/2", "yesterday"⟩] }⟩

/-- A decoder that knows one document, `sampleFeed`. -/
def sampleDecode (body : String) : Option RSS :=
  if body = "<rss>sample</rss>" then some sampleFeed else none

/-- A date parser that knows one date. -/
def sampleParse (s : String) : Option Time :=
  if s = "Mon, 02 Jan 2006 15:04:05 MST" then some 1136239445 else none

/-- A world in which nothing fails and the clock shows 1000. -/
def sampleEnv : Nat → ItemEnv :=
  fun _ => { lookupErr := false, now := 1000, createErr := false, stamp := 1001,
             publishErr := false }

/-- The sample feed without its first item. -/
def sampleFeedTail : RSS :=
  ⟨{ Title := "Chan", Description := "",
     Items := [⟨"No link", "", "", ""⟩, ⟨"New", "fresh", "https://a/2", "yesterday"⟩] }⟩

/-- A decoder that knows two documents. -/
def sampleDecode₂ (body : String) : Option RSS :=
  if body = "<rss>sample</rss>" then some sampleFeed
  else if body = "<rss>tail</rss>" then some sampleFeedTail
  else none

/-- A world in which the insert for the first item fails and nothing else does. -/
def failFirstEnv : Nat → ItemEnv :=
  fun j => { lookupErr := false, now := 1000, createErr := decide (j = 0), stamp := 1001,
             publishErr := false }

/-- An empty table. -/
def emptyDB : DB :=
  { rows := [], nextID := 1 }

/-- An article whose title contains quotation marks. -/
def quotedNews : News :=
  { ID := 7, Title := "Say \"hi\"", Description := "", URL := "https://a/7", Source := "Chan",
    PublishedAt := 0, CreatedAt := 0, UpdatedAt := 0, DeletedAt := none }

/-- A source whose feed is the sample feed. -/
def sampleSource : Source :=
  { url := "http://feeds/a", fetched := .response 200 "<rss>sample</rss>", env := sampleEnv }

/-- A source whose fetch fails. -/
def downSource : Source :=
  { url := "http://feeds/down", fetched := .netError, env := sampleEnv }

/-- A table whose only article, with url `https://a/1`, is soft-deleted: the lookup does
not see it and the unique index still refuses its url. -/
def deletedDB : DB :=
  { rows := [{ sampleRow 1 "Old" "https://a/1" with DeletedAt := some 5 }], nextID := 2 }

/-- A store that consumes one key on every failed insert, as PostgreSQL does on a unique
violation. -/
def oneKey : Nat → Nat :=
  fun _ => 1

/-! ## The store: basic facts -/

theorem DB.first_mem_urls {db : DB} {url : String} (h : (db.first url).isSome = true) :
    url ∈ db.urls := by
  obtain ⟨n, hn⟩ := Option.isSome_iff_exists.mp h
  have hmem := List.mem_of_find?_eq_some hn
  have hp := List.find?_some hn
  simp only [Bool.and_eq_true, decide_eq_true_eq] at hp
  exact List.mem_map.mpr ⟨n, hmem, hp.1⟩

theorem lookupFound_mem_urls {db : DB} {url : String} {lookupErr : Bool}
    (h : lookupFound db url lookupErr = true) : url ∈ db.urls := by
  unfold lookupFound at h
  simp only [Bool.and_eq_true] at h
  exact DB.first_mem_urls h.2

theorem processItem_outcome (parseRFC1123 : String → Option Time) (source : String)
    (i : Nat) (item : Item) (env : ItemEnv) (db : DB) :
    ItemOutcome parseRFC1123 source i item env db
      (processItem parseRFC1123 source i item env db) := by
  unfold processItem
  by_cases hm : item.Link = "" ∨ item.Title = ""
  · rw [if_pos hm]; exact .malformed hm
  · rw [if_neg hm]
    push_neg at hm
    by_cases hf : lookupFound db item.Link env.lookupErr = true
    · rw [if_pos hf]; exact .known hm.1 hm.2 hf
    · rw [if_neg hf]
      have hf' : lookupFound db item.Link env.lookupErr = false := by simpa using hf
      unfold DB.create
      by_cases hc : env.createErr = true
      · simp only [hc, if_true]
        exact .rejected hm.1 hm.2 hf' _ (Or.inl ⟨rfl, hc⟩)
      · have hc' : env.createErr = false := by simpa using hc
        by_cases hd : item.Link ∈ db.urls
        · simp only [hc', mkNews, hd, if_true, Bool.false_eq_true, if_false]
          exact .rejected hm.1 hm.2 hf' _ (Or.inr ⟨rfl, hc', hd⟩)
        · simp only [hc', mkNews, hd, if_false, Bool.false_eq_true, sendToKafka]
          exact .saved hm.1 hm.2 hf' hc' hd

/-! ## Traces -/

theorem persisted_append (a b : List Event) : persisted (a ++ b) = persisted a ++ persisted b :=
  List.filterMap_append _ _ _

theorem published_append (a b : List Event) : published (a ++ b) = published a ++ published b :=
  List.filterMap_append _ _ _

/-- Induction over the loop: a property of the result of `scrapeItems` follows from
its value on the empty feed and its preservation by one iteration. -/
theorem scrapeItems_induction {parseRFC1123 : String → Option Time} {source : String}
    {env : Nat → ItemEnv} (P : Nat → List Item → DB → DB × List Event → Prop)
    (nil : ∀ i db, P i [] db (db, []))
    (cons : ∀ i item rest db r r',
      ItemOutcome parseRFC1123 source i item (env i) db r →
      P (i + 1) rest r.1 r' → P i (item :: rest) db (r'.1, r.2 ++ r'.2))
    (i : Nat) (items : List Item) (db : DB) :
    P i items db (scrapeItems parseRFC1123 source env i items db) := by
  induction items generalizing i db with
  | nil => exact nil i db
  | cons item rest ih =>
    exact cons i item rest db _ _ (processItem_outcome parseRFC1123 source i item (env i) db)
      (ih (i + 1) _)

theorem scrapeItems_rows (parseRFC1123 : String → Option Time) (source : String)
    (env : Nat → ItemEnv) (i : Nat) (items : List Item) (db : DB) :
    (scrapeItems parseRFC1123 source env i items db).1.rows =
      db.rows ++ persisted (scrapeItems parseRFC1123 source env i items db).2 := by
  refine scrapeItems_induction (fun _ _ db r => r.1.rows = db.rows ++ persisted r.2)
    ?_ ?_ i items db
  · intro i db; simp [persisted]
  · intro i item rest db r r' h ih
    simp only [persisted_append]
    cases h <;> simp_all [persisted, Op.created, insertedDB]

theorem scrapeItems_published (parseRFC1123 : String → Option Time) (source : String)
    (env : Nat → ItemEnv) (i : Nat) (items : List Item) (db : DB) :
    published (scrapeItems parseRFC1123 source env i items db).2 =
      (persisted (scrapeItems parseRFC1123 source env i items db).2).map kafkaMessage := by
  refine scrapeItems_induction
    (fun _ _ _ r => published r.2 = (persisted r.2).map kafkaMessage) ?_ ?_ i items db
  · intro i db; simp [persisted, published]
  · intro i item rest db r r' h ih
    simp only [persisted_append, published_append, List.map_append]
    cases h <;> simp_all [persisted, published, Op.created, Op.message]

/-! ## The loop: what it stores -/

theorem DB.urls_insertedDB (parseRFC1123 : String → Option Time) (source : String)
    (item : Item) (env : ItemEnv) (db : DB) :
    (insertedDB parseRFC1123 source item env db).urls = db.urls ++ [item.Link] := by
  simp [insertedDB, DB.urls, savedNews, mkNews]

theorem scrapeItems_urls (parseRFC1123 : String → Option Time) (source : String)
    (env : Nat → ItemEnv) (i : Nat) (items : List Item) (db : DB) :
    (scrapeItems parseRFC1123 source env i items db).1.urls =
      db.urls ++ (persisted (scrapeItems parseRFC1123 source env i items db).2).map News.URL := by
  simp only [DB.urls, scrapeItems_rows parseRFC1123 source env i items db, List.map_append]

/-- The urls stored by a run are pairwise distinct and none of them was in the table. -/
theorem scrapeItems_fresh (parseRFC1123 : String → Option Time) (source : String)
    (env : Nat → ItemEnv) (i : Nat) (items : List Item) (db : DB) :
    ((persisted (scrapeItems parseRFC1123 source env i items db).2).map News.URL).Nodup ∧
      ∀ u ∈ (persisted (scrapeItems parseRFC1123 source env i items db).2).map News.URL,
        u ∉ db.urls := by
  refine scrapeItems_induction
    (fun _ _ db r => ((persisted r.2).map News.URL).Nodup ∧
      ∀ u ∈ (persisted r.2).map News.URL, u ∉ db.urls) ?_ ?_ i items db
  · intro i db; simp [persisted]
  · intro i item rest db r r' h ih
    simp only [persisted_append, List.map_append]
    cases h with
    | malformed h => simpa [persisted] using ih
    | known hl ht hf => simpa [persisted, Op.created] using ih
    | rejected hl ht hf e he => simpa [persisted, Op.created] using ih
    | saved hl ht hf hc hn =>
      simp only [DB.urls_insertedDB] at ih
      have hp : persisted [(⟨i, .lookup item.Link false⟩ : Event),
          ⟨i, .create (savedNews parseRFC1123 source item (env i) db) none⟩,
          ⟨i, .publish (kafkaMessage (savedNews parseRFC1123 source item (env i) db))
            (!(env i).publishErr)⟩] = [savedNews parseRFC1123 source item (env i) db] := by
        simp [persisted, Op.created]
      have hu : (savedNews parseRFC1123 source item (env i) db).URL = item.Link := rfl
      simp only [hp, List.map_cons, List.map_nil, hu, List.singleton_append, List.nodup_cons,
        List.mem_cons, forall_eq_or_imp]
      refine ⟨⟨fun hmem => ?_, ih.1⟩, hn, fun u hu' hdb => ?_⟩
      · exact ih.2 _ hmem (by simp)
      · exact ih.2 u hu' (by simp [hdb])

/-- Url uniqueness is preserved by the loop. -/
theorem scrapeItems_urlUnique (parseRFC1123 : String → Option Time) (source : String)
    (env : Nat → ItemEnv) (i : Nat) (items : List Item) (db : DB) (h : UrlUnique db) :
    UrlUnique (scrapeItems parseRFC1123 source env i items db).1 := by
  unfold UrlUnique at *
  rw [scrapeItems_urls]
  have hf := scrapeItems_fresh parseRFC1123 source env i items db
  refine List.Nodup.append h hf.1 ?_
  intro u hu hp
  exact hf.2 u hp hu

/-- Every stored row comes from a well-formed item of the feed. -/
theorem scrapeItems_persisted_from (parseRFC1123 : String → Option Time) (source : String)
    (env : Nat → ItemEnv) (i : Nat) (items : List Item) (db : DB) :
    ∀ n ∈ persisted (scrapeItems parseRFC1123 source env i items db).2,
      ∃ item ∈ items, item.wellFormed ∧ n.Title = item.Title ∧ n.URL = item.Link ∧
        n.Description = item.Description ∧ n.Source = source := by
  refine scrapeItems_induction
    (fun _ items _ r => ∀ n ∈ persisted r.2,
      ∃ item ∈ items, item.wellFormed ∧ n.Title = item.Title ∧ n.URL = item.Link ∧
        n.Description = item.Description ∧ n.Source = source) ?_ ?_ i items db
  · intro i db; simp [persisted]
  · intro i item rest db r r' h ih n hn
    simp only [persisted_append, List.mem_append] at hn
    rcases hn with hn | hn
    · cases h with
      | malformed h => simp [persisted] at hn
      | known hl ht hf => simp [persisted, Op.created] at hn
      | rejected hl ht hf e he => simp [persisted, Op.created] at hn
      | saved hl ht hf hc hn' =>
        simp [persisted, Op.created] at hn
        subst hn
        exact ⟨item, by simp, ⟨ht, hl⟩, rfl, rfl, rfl, rfl⟩
    · obtain ⟨it, hit, hrest⟩ := ih n hn
      exact ⟨it, List.mem_cons_of_mem _ hit, hrest⟩

/-- When no insert fails for a reason other than the unique index, every well-formed
item of the feed has its link in the table after the run. -/
theorem scrapeItems_covers (parseRFC1123 : String → Option Time) (source : String)
    (env : Nat → ItemEnv) (i : Nat) (items : List Item) (db : DB)
    (h : ∀ e ∈ (scrapeItems parseRFC1123 source env i items db).2, e.op.unavailable = false) :
    ∀ item ∈ items, item.wellFormed →
      item.Link ∈ (scrapeItems parseRFC1123 source env i items db).1.urls := by
  have H := @scrapeItems_induction parseRFC1123 source env
    (fun _ items db r => (∀ u ∈ db.urls, u ∈ r.1.urls) ∧
      ((∀ e ∈ r.2, e.op.unavailable = false) →
        ∀ item ∈ items, item.wellFormed → item.Link ∈ r.1.urls)) ?_ ?_ i items db
  · exact H.2 h
  · intro i db
    exact ⟨fun u hu => hu, fun _ item hi => by simp at hi⟩
  · intro i item rest db r r' ho ih
    have hmono : ∀ u ∈ db.urls, u ∈ r.1.urls := by
      cases ho with
      | malformed h => exact fun u hu => hu
      | known hl ht hf => exact fun u hu => hu
      | rejected hl ht hf e he => exact fun u hu => hu
      | saved hl ht hf hc hn =>
        intro u hu
        simp only [DB.urls_insertedDB, List.mem_append]
        exact Or.inl hu
    refine ⟨fun u hu => ih.1 u (hmono u hu), fun hno it hit hw => ?_⟩
    have hno' : ∀ e ∈ r'.2, e.op.unavailable = false :=
      fun e he => hno e (List.mem_append_right _ he)
    rcases List.mem_cons.mp hit with rfl | hit
    · apply ih.1
      cases ho with
      | malformed h => exact absurd hw (by unfold Item.wellFormed; tauto)
      | known hl ht hf => exact lookupFound_mem_urls hf
      | rejected hl ht hf e he =>
        rcases he with ⟨rfl, _⟩ | ⟨_, _, hd⟩
        · exact absurd (hno ⟨i, .create (mkNews parseRFC1123 source it (env i).now)
            (some .unavailable)⟩ (by simp)) (by simp [Op.unavailable])
        · exact hd
      | saved hl ht hf hc hn =>
        simp [DB.urls_insertedDB]
    · exact ih.2 hno' it hit hw

/-- When every well-formed item of the feed already has its link in the table, the run
stores nothing and leaves the table as it was. -/
theorem scrapeItems_noop (parseRFC1123 : String → Option Time) (source : String)
    (env : Nat → ItemEnv) (i : Nat) (items : List Item) (db : DB)
    (h : ∀ item ∈ items, item.wellFormed → item.Link ∈ db.urls) :
    (scrapeItems parseRFC1123 source env i items db).1 = db ∧
      persisted (scrapeItems parseRFC1123 source env i items db).2 = [] := by
  induction items generalizing i db with
  | nil => simp [scrapeItems, persisted]
  | cons item rest ih =>
    have ho := processItem_outcome parseRFC1123 source i item (env i) db
    have hdb : (processItem parseRFC1123 source i item (env i) db).1 = db ∧
        persisted (processItem parseRFC1123 source i item (env i) db).2 = [] := by
      generalize processItem parseRFC1123 source i item (env i) db = r at ho
      cases ho with
      | malformed h => simp [persisted]
      | known hl ht hf => simp [persisted, Op.created]
      | rejected hl ht hf e he => simp [persisted, Op.created]
      | saved hl ht hf hc hn => exact absurd (h item (by simp) ⟨ht, hl⟩) hn
    have ih' := ih (i + 1) db (fun it hit hw => h it (List.mem_cons_of_mem _ hit) hw)
    simp only [scrapeItems, persisted_append, hdb.1, hdb.2, ih'.1, ih'.2, List.append_nil,
      and_self]

/-! ## The loop: order of the accesses -/

/-- Every access of one iteration is tagged with the index of its item, and the item
is well-formed. -/
theorem ItemOutcome.event_item {parseRFC1123 : String → Option Time} {source : String}
    {i : Nat} {item : Item} {env : ItemEnv} {db : DB} {r : DB × List Event}
    (h : ItemOutcome parseRFC1123 source i item env db r) :
    ∀ e ∈ r.2, e.item = i ∧ item.wellFormed := by
  cases h with
  | malformed h => simp
  | known hl ht hf => simp [Item.wellFormed, hl, ht]
  | rejected hl ht hf e he => simp [Item.wellFormed, hl, ht]
  | saved hl ht hf hc hn => simp [Item.wellFormed, hl, ht]

/-- Every access of a run belongs to a well-formed item of the feed. -/
theorem scrapeItems_event_item (parseRFC1123 : String → Option Time) (source : String)
    (env : Nat → ItemEnv) (i : Nat) (items : List Item) (db : DB) :
    ∀ e ∈ (scrapeItems parseRFC1123 source env i items db).2,
      i ≤ e.item ∧ ∃ item, items[e.item - i]? = some item ∧ item.wellFormed := by
  refine scrapeItems_induction
    (fun i items _ r => ∀ e ∈ r.2,
      i ≤ e.item ∧ ∃ item, items[e.item - i]? = some item ∧ item.wellFormed) ?_ ?_ i items db
  · intro i db; simp
  · intro i item rest db r r' h ih e he
    rcases List.mem_append.mp he with he | he
    · obtain ⟨hi, hw⟩ := h.event_item e he
      exact ⟨hi.ge, item, by simp [hi], hw⟩
    · obtain ⟨hi, it, hit, hw⟩ := ih e he
      refine ⟨by omega, it, ?_, hw⟩
      have : e.item - i = (e.item - (i + 1)) + 1 := by omega
      rw [this, List.getElem?_cons_succ]
      exact hit

/-- The accesses of a run happen in feed order. -/
theorem scrapeItems_ordered (parseRFC1123 : String → Option Time) (source : String)
    (env : Nat → ItemEnv) (i : Nat) (items : List Item) (db : DB) :
    (scrapeItems parseRFC1123 source env i items db).2.Pairwise
      (fun a b => a.item ≤ b.item) := by
  induction items generalizing i db with
  | nil => simp [scrapeItems]
  | cons item rest ih =>
    simp only [scrapeItems]
    rw [List.pairwise_append]
    refine ⟨?_, ih (i + 1) _, ?_⟩
    · have ho := processItem_outcome parseRFC1123 source i item (env i) db
      generalize processItem parseRFC1123 source i item (env i) db = r at ho
      cases ho <;> simp
    · intro a ha b hb
      have h1 := (processItem_outcome parseRFC1123 source i item (env i) db).event_item a ha
      have h2 := scrapeItems_event_item parseRFC1123 source env (i + 1) rest _ b hb
      omega

/-- The rows stored by a run are, in order, a subsequence of the items of the feed. -/
theorem scrapeItems_sublist (parseRFC1123 : String → Option Time) (source : String)
    (env : Nat → ItemEnv) (i : Nat) (items : List Item) (db : DB) :
    List.Sublist ((persisted (scrapeItems parseRFC1123 source env i items db).2).map News.fromItem)
      (items.map Item.toRow) := by
  refine scrapeItems_induction
    (fun _ items _ r => List.Sublist ((persisted r.2).map News.fromItem) (items.map Item.toRow))
    ?_ ?_ i items db
  · intro i db; simp [persisted]
  · intro i item rest db r r' h ih
    simp only [persisted_append, List.map_append, List.map_cons]
    cases h with
    | malformed h => simpa [persisted] using ih.cons item.toRow
    | known hl ht hf => simpa [persisted, Op.created] using ih.cons item.toRow
    | rejected hl ht hf e he => simpa [persisted, Op.created] using ih.cons item.toRow
    | saved hl ht hf hc hn =>
      have : (savedNews parseRFC1123 source item (env i) db).fromItem = item.toRow := rfl
      simpa [persisted, Op.created, this] using ih.cons₂ item.toRow
/-! ## `scrapeSource` on a fetched feed -/

theorem scrapeSource_response (xmlDecode : String → Option RSS)
    (parseRFC1123 : String → Option Time) (status : Nat) (body : String) (rss : RSS)
    (env : Nat → ItemEnv) (db : DB) (hd : xmlDecode body = some rss) :
    scrapeSource xmlDecode parseRFC1123 (.response status body) env db =
      scrapeItems parseRFC1123 rss.Channel.Title env 0 rss.Channel.Items db := by
  simp [scrapeSource, hd]

/-- Whatever was fetched, `scrapeSource` is the loop over some list of items. -/
theorem scrapeSource_eq_loop (xmlDecode : String → Option RSS)
    (parseRFC1123 : String → Option Time) (fetched : FetchResult) (env : Nat → ItemEnv)
    (db : DB) :
    ∃ source items, scrapeSource xmlDecode parseRFC1123 fetched env db =
      scrapeItems parseRFC1123 source env 0 items db := by
  cases fetched with
  | netError => exact ⟨"", [], rfl⟩
  | response status body =>
    cases hd : xmlDecode body with
    | none => exact ⟨"", [], by simp [scrapeSource, hd, scrapeItems]⟩
    | some rss => exact ⟨_, _, scrapeSource_response _ _ _ _ _ _ _ hd⟩

theorem List.eq_singleton_of_nodup_of_mem_iff {α : Type} {l : List α} {a : α}
    (hn : l.Nodup) (h : ∀ u, u ∈ l ↔ u = a) : l = [a] := by
  have hp : l.Perm [a] :=
    (List.perm_ext_iff_of_nodup hn (List.nodup_singleton a)).mpr (fun u => by simp [h u])
  exact List.perm_singleton.mp hp

/-! ## Claims about one run of `scrapeSource` -/

/-- C2: re-ingestion is idempotent. When `scrapeSource` runs twice in succession on the
same fetched feed and no insert of the first run fails for a reason other than the unique
index on `url`, the second run stores no article, hands no message to Kafka and leaves the
table as the first run left it, whatever fails or succeeds during the second run. -/
theorem reingestion_idempotent (xmlDecode : String → Option RSS)
    (parseRFC1123 : String → Option Time) (fetched : FetchResult)
    (env₁ env₂ : Nat → ItemEnv) (db : DB)
    (h : ∀ e ∈ (scrapeSource xmlDecode parseRFC1123 fetched env₁ db).2,
      e.op.unavailable = false) :
    persisted (scrapeSource xmlDecode parseRFC1123 fetched env₂
        (scrapeSource xmlDecode parseRFC1123 fetched env₁ db).1).2 = [] ∧
      published (scrapeSource xmlDecode parseRFC1123 fetched env₂
        (scrapeSource xmlDecode parseRFC1123 fetched env₁ db).1).2 = [] ∧
      (scrapeSource xmlDecode parseRFC1123 fetched env₂
        (scrapeSource xmlDecode parseRFC1123 fetched env₁ db).1).1 =
        (scrapeSource xmlDecode parseRFC1123 fetched env₁ db).1 := by
  cases fetched with
  | netError => simp [scrapeSource, persisted, published]
  | response status body =>
    cases hd : xmlDecode body with
    | none => simp [scrapeSource, hd, persisted, published]
    | some rss =>
      simp only [scrapeSource_response _ _ _ _ _ _ _ hd] at h ⊢
      have hcov := scrapeItems_covers parseRFC1123 rss.Channel.Title env₁ 0 rss.Channel.Items db h
      have hno := scrapeItems_noop parseRFC1123 rss.Channel.Title env₂ 0 rss.Channel.Items _ hcov
      refine ⟨hno.2, ?_, hno.1⟩
      rw [scrapeItems_published, hno.2]
      rfl

/-- Idempotence on the sample feed: the first run stores the new item without any store
failure, and the second run publishes nothing. -/
theorem reingestion_idempotent_witness :
    (∀ e ∈ (scrapeSource sampleDecode sampleParse (.response 200 "<rss>sample</rss>")
        sampleEnv sampleDB).2, e.op.unavailable = false) ∧
      published (scrapeSource sampleDecode sampleParse (.response 200 "<rss>sample</rss>")
        sampleEnv (scrapeSource sampleDecode sampleParse (.response 200 "<rss>sample</rss>")
          sampleEnv sampleDB).1).2 = [] :=
  ⟨by decide, (reingestion_idempotent sampleDecode sampleParse
    (.response 200 "<rss>sample</rss>") sampleEnv sampleEnv sampleDB (by decide)).2.1⟩
/-- When no insert fails for a reason other than the unique index, the urls a run stores
are exactly the links of the well-formed items that were not in the table. -/
theorem scrapeItems_persisted_urls (parseRFC1123 : String → Option Time) (source : String)
    (env : Nat → ItemEnv) (i : Nat) (items : List Item) (db : DB)
    (hc : ∀ j, (env j).createErr = false) (u : String) :
    u ∈ (persisted (scrapeItems parseRFC1123 source env i items db).2).map News.URL ↔
      (u ∉ db.urls ∧ ∃ item ∈ items, item.wellFormed ∧ item.Link = u) := by
  constructor
  · intro hu
    refine ⟨(scrapeItems_fresh parseRFC1123 source env i items db).2 u hu, ?_⟩
    obtain ⟨n, hn, rfl⟩ := List.mem_map.mp hu
    obtain ⟨item, hi, hw, _, hurl, _⟩ :=
      scrapeItems_persisted_from parseRFC1123 source env i items db n hn
    exact ⟨item, hi, hw, hurl.symm⟩
  · rintro ⟨hnot, item, hi, hw, rfl⟩
    have hno : ∀ e ∈ (scrapeItems parseRFC1123 source env i items db).2,
        e.op.unavailable = false := by
      refine scrapeItems_induction (fun _ _ _ r => ∀ e ∈ r.2, e.op.unavailable = false)
        ?_ ?_ i items db
      · intro i db; simp
      · intro i item rest db r r' ho ih e he
        rcases List.mem_append.mp he with he | he
        · cases ho with
          | malformed h => simp at he
          | known hl ht hf => simp at he; subst he; rfl
          | rejected hl ht hf e' he' =>
            rcases he' with ⟨_, hcr⟩ | ⟨rfl, _, _⟩
            · rw [hc i] at hcr; exact absurd hcr (by simp)
            · simp at he; rcases he with rfl | rfl <;> rfl
          | saved hl ht hf hc' hn => simp at he; rcases he with rfl | rfl | rfl <;> rfl
        · exact ih e he
    have hcov := scrapeItems_covers parseRFC1123 source env i items db hno item hi hw
    rw [scrapeItems_urls, List.mem_append] at hcov
    exact hcov.resolve_left hnot

/-- C3: what one run stores. On a fetched feed, when no insert fails for a reason other
than the unique index on `url` (lookups may even fail), the table after the run is the
table before it followed by the rows the run inserted; the urls of those rows are pairwise
distinct and are exactly the links of the well-formed items of the feed that were not in
the table; one message is handed to Kafka per inserted row. In particular a feed of three
items, in any order, one well-formed with a url already stored, one with an empty link and
one well-formed with a new url, yields exactly one inserted row and one message. -/
theorem new_urls_persisted_once (xmlDecode : String → Option RSS)
    (parseRFC1123 : String → Option Time) (status : Nat) (body : String) (rss : RSS)
    (env : Nat → ItemEnv) (db : DB) (hd : xmlDecode body = some rss)
    (hc : ∀ i, (env i).createErr = false) :
    (scrapeSource xmlDecode parseRFC1123 (.response status body) env db).1.rows =
        db.rows ++ persisted (scrapeSource xmlDecode parseRFC1123 (.response status body) env db).2 ∧
      ((persisted (scrapeSource xmlDecode parseRFC1123 (.response status body) env db).2).map
        News.URL).Nodup ∧
      (∀ u, u ∈ (persisted (scrapeSource xmlDecode parseRFC1123 (.response status body)
          env db).2).map News.URL ↔
        (u ∉ db.urls ∧ ∃ item ∈ rss.Channel.Items, item.wellFormed ∧ item.Link = u)) ∧
      (published (scrapeSource xmlDecode parseRFC1123 (.response status body) env db).2).length =
        (persisted (scrapeSource xmlDecode parseRFC1123 (.response status body) env db).2).length ∧
      (∀ d m n : Item, rss.Channel.Items.Perm [d, m, n] →
        d.wellFormed → d.Link ∈ db.urls → m.Link = "" → n.wellFormed → n.Link ∉ db.urls →
        (persisted (scrapeSource xmlDecode parseRFC1123 (.response status body)
          env db).2).length = 1 ∧
        (published (scrapeSource xmlDecode parseRFC1123 (.response status body)
          env db).2).length = 1) := by
  rw [scrapeSource_response _ _ _ _ _ _ _ hd]
  have hrows := scrapeItems_rows parseRFC1123 rss.Channel.Title env 0 rss.Channel.Items db
  have hfresh := scrapeItems_fresh parseRFC1123 rss.Channel.Title env 0 rss.Channel.Items db
  have hiff := scrapeItems_persisted_urls parseRFC1123 rss.Channel.Title env 0
    rss.Channel.Items db hc
  have hpub : (published (scrapeItems parseRFC1123 rss.Channel.Title env 0
      rss.Channel.Items db).2).length = (persisted (scrapeItems parseRFC1123
      rss.Channel.Title env 0 rss.Channel.Items db).2).length := by
    rw [scrapeItems_published, List.length_map]
  refine ⟨hrows, hfresh.1, hiff, hpub, ?_⟩
  intro d m n hperm hdw hdin hm hnw hnew
  have hone : (persisted (scrapeItems parseRFC1123 rss.Channel.Title env 0
      rss.Channel.Items db).2).map News.URL = [n.Link] := by
    apply List.eq_singleton_of_nodup_of_mem_iff hfresh.1
    intro u
    rw [hiff u]
    constructor
    · rintro ⟨hnot, item, hi, hw, rfl⟩
      have hmem : item ∈ [d, m, n] := hperm.subset hi
      simp only [List.mem_cons, List.mem_singleton, List.not_mem_nil, or_false] at hmem
      rcases hmem with rfl | rfl | rfl
      · exact absurd hdin hnot
      · exact absurd hm hw.2
      · rfl
    · rintro rfl
      exact ⟨hnew, n, hperm.symm.subset (by simp), hnw, rfl⟩
  have hlen : (persisted (scrapeItems parseRFC1123 rss.Channel.Title env 0
      rss.Channel.Items db).2).length = 1 := by
    have := congrArg List.length hone
    simpa using this
  exact ⟨hlen, hpub.trans hlen⟩

/-- The scenario on the sample feed and table: one row inserted, one message published. -/
theorem new_urls_persisted_once_witness :
    sampleDecode "<rss>sample</rss>" = some sampleFeed ∧
      (∀ i, (sampleEnv i).createErr = false) ∧
      (persisted (scrapeSource sampleDecode sampleParse (.response 200 "<rss>sample</rss>")
        sampleEnv sampleDB).2).length = 1 ∧
      (published (scrapeSource sampleDecode sampleParse (.response 200 "<rss>sample</rss>")
        sampleEnv sampleDB).2).length = 1 :=
  ⟨by decide, fun _ => rfl,
    (new_urls_persisted_once sampleDecode sampleParse 200 "<rss>sample</rss>" sampleFeed
      sampleEnv sampleDB (by decide) (fun _ => rfl)).2.2.2.2
      ⟨"Old", "", "https://a/1", ""⟩ ⟨"No link", "", "", ""⟩
      ⟨"New", "fresh", "https://a/2", "yesterday"⟩ (List.Perm.refl _)
      (by decide) (by decide) (by decide) (by decide) (by decide)⟩

/-- C4: malformed items are skipped. On a fetched feed, every row in the table after the
run was either there before or was inserted by the run with a non-empty title and a
non-empty url; every message handed to Kafka is the message of such an inserted row; and
for an item with an empty title or an empty link the run makes no lookup, no insert and no
publish. -/
theorem malformed_items_skipped (xmlDecode : String → Option RSS)
    (parseRFC1123 : String → Option Time) (status : Nat) (body : String) (rss : RSS)
    (env : Nat → ItemEnv) (db : DB) (hd : xmlDecode body = some rss) :
    (∀ n ∈ (scrapeSource xmlDecode parseRFC1123 (.response status body) env db).1.rows,
        n ∈ db.rows ∨
          (n ∈ persisted (scrapeSource xmlDecode parseRFC1123 (.response status body) env db).2 ∧
            n.Title ≠ "" ∧ n.URL ≠ "")) ∧
      (∀ msg ∈ published (scrapeSource xmlDecode parseRFC1123 (.response status body) env db).2,
        ∃ n ∈ persisted (scrapeSource xmlDecode parseRFC1123 (.response status body) env db).2,
          msg = kafkaMessage n ∧ n.Title ≠ "" ∧ n.URL ≠ "") ∧
      (∀ i item, rss.Channel.Items[i]? = some item → (item.Title = "" ∨ item.Link = "") →
        ∀ e ∈ (scrapeSource xmlDecode parseRFC1123 (.response status body) env db).2,
          e.item ≠ i) := by
  rw [scrapeSource_response _ _ _ _ _ _ _ hd]
  have hfrom := scrapeItems_persisted_from parseRFC1123 rss.Channel.Title env 0
    rss.Channel.Items db
  have hne : ∀ n ∈ persisted (scrapeItems parseRFC1123 rss.Channel.Title env 0
      rss.Channel.Items db).2, n.Title ≠ "" ∧ n.URL ≠ "" := by
    intro n hn
    obtain ⟨item, _, hw, ht, hu, _⟩ := hfrom n hn
    rw [ht, hu]; exact hw
  refine ⟨?_, ?_, ?_⟩
  · intro n hn
    rw [scrapeItems_rows, List.mem_append] at hn
    rcases hn with hn | hn
    · exact Or.inl hn
    · exact Or.inr ⟨hn, hne n hn⟩
  · intro msg hmsg
    rw [scrapeItems_published] at hmsg
    obtain ⟨n, hn, rfl⟩ := List.mem_map.mp hmsg
    exact ⟨n, hn, rfl, hne n hn⟩
  · intro i item hi hbad e he hei
    obtain ⟨_, it, hit, hw⟩ := scrapeItems_event_item parseRFC1123 rss.Channel.Title env 0
      rss.Channel.Items db e he
    rw [hei, Nat.sub_zero, hi] at hit
    cases hit
    rcases hbad with h | h
    · exact hw.1 h
    · exact hw.2 h

/-- On the sample feed no access is made for the item with the empty link, at index 1. -/
theorem malformed_items_skipped_witness :
    sampleDecode "<rss>sample</rss>" = some sampleFeed ∧
      ∀ e ∈ (scrapeSource sampleDecode sampleParse (.response 200 "<rss>sample</rss>")
        sampleEnv sampleDB).2, e.item ≠ 1 :=
  ⟨by decide, (malformed_items_skipped sampleDecode sampleParse 200 "<rss>sample</rss>"
    sampleFeed sampleEnv sampleDB (by decide)).2.2 1 ⟨"No link", "", "", ""⟩ (by decide)
    (by decide)⟩
/-- C5: feed order and one message per inserted row. On a fetched feed, the messages
handed to Kafka are, in order, the messages of the rows the run inserted (each built from
the id, title, url and source of the row); these rows follow the order of the items of the
feed; and every access made for an item happens before every access made for a later item,
so the publish for item `i` precedes any lookup or insert for item `i + 1`. -/
theorem publish_follows_feed_order (xmlDecode : String → Option RSS)
    (parseRFC1123 : String → Option Time) (status : Nat) (body : String) (rss : RSS)
    (env : Nat → ItemEnv) (db : DB) (hd : xmlDecode body = some rss) :
    published (scrapeSource xmlDecode parseRFC1123 (.response status body) env db).2 =
        (persisted (scrapeSource xmlDecode parseRFC1123 (.response status body) env db).2).map
          kafkaMessage ∧
      List.Sublist
        ((persisted (scrapeSource xmlDecode parseRFC1123 (.response status body) env db).2).map
          News.fromItem)
        (rss.Channel.Items.map Item.toRow) ∧
      (∀ (p q : Nat)
        (hp : p < (scrapeSource xmlDecode parseRFC1123 (.response status body) env db).2.length)
        (hq : q < (scrapeSource xmlDecode parseRFC1123 (.response status body) env db).2.length),
        ((scrapeSource xmlDecode parseRFC1123 (.response status body) env db).2.get ⟨p, hp⟩).item <
          ((scrapeSource xmlDecode parseRFC1123 (.response status body) env db).2.get ⟨q, hq⟩).item →
        p < q) := by
  rw [scrapeSource_response _ _ _ _ _ _ _ hd]
  refine ⟨scrapeItems_published _ _ _ _ _ _, scrapeItems_sublist _ _ _ _ _ _, ?_⟩
  intro p q hp hq hlt
  by_contra hpq
  have hord := scrapeItems_ordered parseRFC1123 rss.Channel.Title env 0 rss.Channel.Items db
  rcases Nat.lt_or_eq_of_le (Nat.le_of_not_lt hpq) with h | h
  · have := List.pairwise_iff_get.mp hord ⟨q, hq⟩ ⟨p, hp⟩ h
    omega
  · subst h
    exact absurd hlt (lt_irrefl _)

/-- On the sample feed the messages published are those of the rows inserted. -/
theorem publish_follows_feed_order_witness :
    sampleDecode "<rss>sample</rss>" = some sampleFeed ∧
      published (scrapeSource sampleDecode sampleParse (.response 200 "<rss>sample</rss>")
        sampleEnv sampleDB).2 =
      (persisted (scrapeSource sampleDecode sampleParse (.response 200 "<rss>sample</rss>")
        sampleEnv sampleDB).2).map kafkaMessage :=
  ⟨by decide, (publish_follows_feed_order sampleDecode sampleParse 200 "<rss>sample</rss>"
    sampleFeed sampleEnv sampleDB (by decide)).1⟩
/-! ## Splitting the loop -/

theorem scrapeItems_append (parseRFC1123 : String → Option Time) (source : String)
    (env : Nat → ItemEnv) (i : Nat) (a b : List Item) (db : DB) :
    scrapeItems parseRFC1123 source env i (a ++ b) db =
      ((scrapeItems parseRFC1123 source env (i + a.length) b
          (scrapeItems parseRFC1123 source env i a db).1).1,
        (scrapeItems parseRFC1123 source env i a db).2 ++
          (scrapeItems parseRFC1123 source env (i + a.length) b
            (scrapeItems parseRFC1123 source env i a db).1).2) := by
  induction a generalizing i db with
  | nil => simp [scrapeItems]
  | cons x a ih =>
    have step : ∀ l, scrapeItems parseRFC1123 source env i (x :: l) db =
        ((scrapeItems parseRFC1123 source env (i + 1) l
            (processItem parseRFC1123 source i x (env i) db).1).1,
          (processItem parseRFC1123 source i x (env i) db).2 ++
            (scrapeItems parseRFC1123 source env (i + 1) l
              (processItem parseRFC1123 source i x (env i) db).1).2) := fun l => rfl
    have harith : i + 1 + a.length = i + (a.length + 1) := by omega
    rw [List.cons_append, step, step, ih, List.length_cons, harith, List.append_assoc]

/-- The loop at the item that follows `pre`. -/
theorem scrapeItems_split (parseRFC1123 : String → Option Time) (source : String)
    (env : Nat → ItemEnv) (pre : List Item) (x : Item) (post : List Item) (db : DB) :
    scrapeItems parseRFC1123 source env 0 (pre ++ x :: post) db =
      ((scrapeItems parseRFC1123 source env (pre.length + 1) post
          (processItem parseRFC1123 source pre.length x (env pre.length)
            (scrapeItems parseRFC1123 source env 0 pre db).1).1).1,
        (scrapeItems parseRFC1123 source env 0 pre db).2 ++
          ((processItem parseRFC1123 source pre.length x (env pre.length)
            (scrapeItems parseRFC1123 source env 0 pre db).1).2 ++
          (scrapeItems parseRFC1123 source env (pre.length + 1) post
            (processItem parseRFC1123 source pre.length x (env pre.length)
              (scrapeItems parseRFC1123 source env 0 pre db).1).1).2)) := by
  rw [scrapeItems_append]
  simp only [Nat.zero_add, scrapeItems]

theorem scrapeItems_rows_subset (parseRFC1123 : String → Option Time) (source : String)
    (env : Nat → ItemEnv) (i : Nat) (items : List Item) (db : DB) :
    ∀ n ∈ db.rows, n ∈ (scrapeItems parseRFC1123 source env i items db).1.rows := by
  intro n hn
  rw [scrapeItems_rows]
  exact List.mem_append_left _ hn

/-- C9: date fallback. On a fetched feed, take a well-formed item whose link is not in the
table when the item is reached and whose publish date is empty or does not parse as
RFC 1123. The item is not skipped: the run attempts the insert of a row with the item's
title and link whose `PublishedAt` is the value of `time.Now()` read while the item was
processed, which is no earlier than the start of the cycle when the clock read then is not.
Unless the store itself is unavailable for that insert, the insert succeeds and the row is
in the table after the run. -/
theorem date_fallback (xmlDecode : String → Option RSS)
    (parseRFC1123 : String → Option Time) (status : Nat) (body : String) (rss : RSS)
    (env : Nat → ItemEnv) (db : DB) (pre : List Item) (item : Item) (post : List Item)
    (cycleStart : Time)
    (hd : xmlDecode body = some rss) (hitems : rss.Channel.Items = pre ++ item :: post)
    (hw : item.wellFormed)
    (hnew : item.Link ∉ (scrapeItems parseRFC1123 rss.Channel.Title env 0 pre db).1.urls)
    (hdate : item.PubDate = "" ∨ parseRFC1123 item.PubDate = none)
    (hclock : cycleStart ≤ (env pre.length).now) :
    ∃ n err,
      (⟨pre.length, .create n err⟩ : Event) ∈
        (scrapeSource xmlDecode parseRFC1123 (.response status body) env db).2 ∧
      n.Title = item.Title ∧ n.URL = item.Link ∧ n.PublishedAt = (env pre.length).now ∧
      cycleStart ≤ n.PublishedAt ∧
      (err = none ↔ (env pre.length).createErr = false) ∧
      (err = none →
        n ∈ (scrapeSource xmlDecode parseRFC1123 (.response status body) env db).1.rows) := by
  rw [scrapeSource_response _ _ _ _ _ _ _ hd, hitems, scrapeItems_split]
  have ho := processItem_outcome parseRFC1123 rss.Channel.Title pre.length item
    (env pre.length) (scrapeItems parseRFC1123 rss.Channel.Title env 0 pre db).1
  generalize scrapeItems parseRFC1123 rss.Channel.Title env 0 pre db = before at ho hnew ⊢
  generalize processItem parseRFC1123 rss.Channel.Title pre.length item (env pre.length)
    before.1 = r at ho ⊢
  have hpub : pubTime parseRFC1123 item (env pre.length).now = (env pre.length).now := by
    unfold pubTime
    rcases hdate with h | h
    · simp [h]
    · simp [h]
  have hstart : cycleStart ≤ pubTime parseRFC1123 item (env pre.length).now := by
    rw [hpub]; exact hclock
  cases ho with
  | malformed h => exact absurd hw (by unfold Item.wellFormed; tauto)
  | known hl ht hf => exact absurd (lookupFound_mem_urls hf) hnew
  | rejected hl ht hf e he =>
    rcases he with ⟨_, h⟩ | ⟨_, _, h⟩
    · refine ⟨mkNews parseRFC1123 rss.Channel.Title item (env pre.length).now, some e,
        by simp, rfl, rfl, hpub, hstart, ?_, fun h' => by cases h'⟩
      simp [h]
    · exact absurd h hnew
  | saved hl ht hf hc' hn =>
    refine ⟨savedNews parseRFC1123 rss.Channel.Title item (env pre.length) before.1, none,
      by simp, rfl, rfl, hpub, hstart, by simp [hc'], fun _ => ?_⟩
    apply scrapeItems_rows_subset
    simp [insertedDB]

/-- The date fallback on the sample feed: its third item has a date that does not parse,
and it is stored with the clock value 1000. -/
theorem date_fallback_witness :
    ∃ n err,
      (⟨2, .create n err⟩ : Event) ∈
        (scrapeSource sampleDecode sampleParse (.response 200 "<rss>sample</rss>")
          sampleEnv sampleDB).2 ∧
      n.Title = "New" ∧ n.URL = "https://a/2" ∧ n.PublishedAt = 1000 ∧
      (900 : Time) ≤ n.PublishedAt ∧
      (err = none ↔ (sampleEnv 2).createErr = false) ∧
      (err = none →
        n ∈ (scrapeSource sampleDecode sampleParse (.response 200 "<rss>sample</rss>")
          sampleEnv sampleDB).1.rows) :=
  date_fallback sampleDecode sampleParse 200 "<rss>sample</rss>" sampleFeed sampleEnv sampleDB
    [⟨"Old", "", "https://a/1", ""⟩, ⟨"No link", "", "", ""⟩]
    ⟨"New", "fresh", "https://a/2", "yesterday"⟩ [] 900
    (by decide) (by decide) (by decide) (by decide) (by decide) (by decide)

/-! ## Taking an item out of the feed -/

theorem processItem_index (parseRFC1123 : String → Option Time) (source : String)
    (i j : Nat) (item : Item) (env : ItemEnv) (db : DB) :
    (processItem parseRFC1123 source i item env db).1 =
        (processItem parseRFC1123 source j item env db).1 ∧
      ops (processItem parseRFC1123 source i item env db).2 =
        ops (processItem parseRFC1123 source j item env db).2 := by
  unfold processItem
  split
  · exact ⟨rfl, rfl⟩
  · split
    · exact ⟨rfl, rfl⟩
    · dsimp only
      generalize db.create (mkNews parseRFC1123 source item env.now) env.createErr env.stamp = c
      cases c with
      | error e => exact ⟨rfl, rfl⟩
      | ok v => exact ⟨rfl, rfl⟩

theorem ops_append (a b : List Event) : ops (a ++ b) = ops a ++ ops b :=
  List.map_append _ _ _

/-- The loop does not depend on where the item indices start, up to the item tags. -/
theorem scrapeItems_shift (parseRFC1123 : String → Option Time) (source : String)
    (env env' : Nat → ItemEnv) (i : Nat) (items : List Item) (db : DB)
    (h : ∀ j, i ≤ j → env' j = env (j + 1)) :
    (scrapeItems parseRFC1123 source env (i + 1) items db).1 =
        (scrapeItems parseRFC1123 source env' i items db).1 ∧
      ops (scrapeItems parseRFC1123 source env (i + 1) items db).2 =
        ops (scrapeItems parseRFC1123 source env' i items db).2 := by
  induction items generalizing i db with
  | nil => simp [scrapeItems]
  | cons x rest ih =>
    have hx := processItem_index parseRFC1123 source (i + 1) i x (env (i + 1)) db
    have ih' := ih (i + 1) (processItem parseRFC1123 source i x (env (i + 1)) db).1
      (fun j hj => h j (by omega))
    simp only [scrapeItems, h i le_rfl, ops_append, hx.1, hx.2, ih'.1, ih'.2, true_and]

theorem scrapeItems_congr_env (parseRFC1123 : String → Option Time) (source : String)
    (env env' : Nat → ItemEnv) (i : Nat) (items : List Item) (db : DB)
    (h : ∀ j, i ≤ j → j < i + items.length → env' j = env j) :
    scrapeItems parseRFC1123 source env' i items db =
      scrapeItems parseRFC1123 source env i items db := by
  induction items generalizing i db with
  | nil => simp [scrapeItems]
  | cons x rest ih =>
    simp only [List.length_cons] at h
    simp only [scrapeItems, h i le_rfl (by omega)]
    rw [ih (i + 1) _ (fun j hj hj' => h j (by omega) (by omega))]

theorem persisted_eq_of_ops {t t' : List Event} (h : ops t = ops t') :
    persisted t = persisted t' := by
  have e : ∀ u : List Event, persisted u = (ops u).filterMap Op.created := by
    intro u; simp [persisted, ops, List.filterMap_map, Function.comp_def]
  rw [e, e, h]

theorem published_eq_of_ops {t t' : List Event} (h : ops t = ops t') :
    published t = published t' := by
  have e : ∀ u : List Event, published u = (ops u).filterMap Op.message := by
    intro u; simp [published, ops, List.filterMap_map, Function.comp_def]
  rw [e, e, h]

/-! ## Fetch failures -/

/-- C7, as the code has it: only a network failure stops `scrapeSource` before the parser.
On a network failure it returns without any access, leaving the table as it was. A
response is handed to the parser whatever its status code, which is never inspected: the
result on a response depends on the body alone, and it is without effect when the body
does not decode as a feed. -/
theorem fetch_failure_without_effect (xmlDecode : String → Option RSS)
    (parseRFC1123 : String → Option Time) (env : Nat → ItemEnv) (db : DB) :
    scrapeSource xmlDecode parseRFC1123 .netError env db = (db, []) ∧
      (∀ status status' body,
        scrapeSource xmlDecode parseRFC1123 (.response status body) env db =
          scrapeSource xmlDecode parseRFC1123 (.response status' body) env db) ∧
      (∀ status body, xmlDecode body = none →
        scrapeSource xmlDecode parseRFC1123 (.response status body) env db = (db, [])) := by
  refine ⟨rfl, fun _ _ _ => rfl, fun status body h => ?_⟩
  simp [scrapeSource, h]

/-- C7 as stated fails: a response with status 500 whose body decodes as a feed with a new
well-formed item is parsed, one article is stored and one message is published, unlike
what happens on a network failure. -/
theorem nonsuccess_status_is_parsed :
    (persisted (scrapeSource sampleDecode sampleParse (.response 500 "<rss>sample</rss>")
        sampleEnv sampleDB).2).length = 1 ∧
      (published (scrapeSource sampleDecode sampleParse (.response 500 "<rss>sample</rss>")
        sampleEnv sampleDB).2).length = 1 ∧
      (scrapeSource sampleDecode sampleParse (.response 500 "<rss>sample</rss>")
        sampleEnv sampleDB).1 ≠ sampleDB ∧
      scrapeSource sampleDecode sampleParse (.response 500 "<rss>sample</rss>")
        sampleEnv sampleDB ≠
      scrapeSource sampleDecode sampleParse .netError sampleEnv sampleDB := by
  decide

/-! ## The outbound payload -/

/-- C8, at an article whose title contains quotation marks: the key is `news_7`, but the
value `sendToKafka` builds copies the title without escaping it and is not a JSON
object. -/
theorem payload_not_json_on_quote :
    (kafkaMessage quotedNews).Key = "news_7" ∧
      (kafkaMessage quotedNews).Value =
        "\x7b\"id\":7,\"title\":\"Say \"hi\"\",\"url\":\"https://a/7\",\"source\":\"Chan\"\x7d" ∧
      decodeObject (kafkaMessage quotedNews).Value = none ∧
      decodeObject (kafkaMessage quotedNews).Value ≠ some (expectedPayload quotedNews) := by
  decide

/-- The decoder reads the payload of an article without special characters back. -/
theorem payload_json_on_plain :
    decodeObject (kafkaMessage (sampleRow 1 "Old" "https://a/1")).Value =
      some (expectedPayload (sampleRow 1 "Old" "https://a/1")) := by
  decide

/-- The message key is `news_` followed by the decimal id. -/
theorem kafkaMessage_key (news : News) :
    (kafkaMessage news).Key = "news_" ++ toString news.ID :=
  rfl
/-! ## Url uniqueness -/

theorem DB.create_urlUnique {db db' : DB} {news saved : News} {fails : Bool} {stamp : Time}
    (h : UrlUnique db) (hc : db.create news fails stamp = .ok (saved, db')) :
    UrlUnique db' := by
  unfold DB.create at hc
  split at hc
  · cases hc
  · split at hc
    · cases hc
    · rename_i hnot
      simp only [Except.ok.injEq, Prod.mk.injEq] at hc
      obtain ⟨_, rfl⟩ := hc
      unfold UrlUnique DB.urls at *
      simp only [List.map_append, List.map_cons, List.map_nil]
      refine List.Nodup.append h (List.nodup_singleton _) ?_
      intro u hu hu'
      simp only [List.mem_singleton] at hu'
      subst hu'
      exact hnot hu

/-- A step of a worker keeps the urls of the table pairwise distinct. -/
theorem Worker.step_urlUnique {parseRFC1123 : String → Option Time} {w w' : Worker}
    {db db' : DB} {evs : List Event} (h : UrlUnique db)
    (hs : w.step parseRFC1123 db = some (w', db', evs)) : UrlUnique db' := by
  unfold Worker.step at hs
  cases hitems : w.items with
  | nil => simp [hitems] at hs
  | cons item rest =>
    simp only [hitems] at hs
    cases hpc : w.pc with
    | lookup =>
      simp only [hpc] at hs
      split at hs
      · cases hs; exact h
      · split at hs <;> (cases hs; exact h)
    | create =>
      simp only [hpc] at hs
      cases hcr : db.create (mkNews parseRFC1123 w.source item (w.env w.idx).now)
          (w.env w.idx).createErr (w.env w.idx).stamp with
      | error e => simp only [hcr] at hs; cases hs; exact h
      | ok v =>
        obtain ⟨saved, db''⟩ := v
        simp only [hcr] at hs
        cases hs
        exact DB.create_urlUnique h hcr
    | publish saved => simp only [hpc] at hs; cases hs; exact h

theorem stepAt_urlUnique (parseRFC1123 : String → Option Time) (k : Nat) (st : CycleState)
    (h : UrlUnique st.db) : UrlUnique (stepAt parseRFC1123 k st).db := by
  unfold stepAt
  cases hk : st.workers[k]? with
  | none => exact h
  | some w =>
    cases hs : w.step parseRFC1123 st.db with
    | none => simpa [hs] using h
    | some r =>
      obtain ⟨w', db', evs⟩ := r
      simp only [hs]
      exact Worker.step_urlUnique h hs

theorem runSchedule_urlUnique (parseRFC1123 : String → Option Time) (sched : List Nat)
    (st : CycleState) (h : UrlUnique st.db) :
    UrlUnique (runSchedule parseRFC1123 sched st).db := by
  induction sched generalizing st with
  | nil => exact h
  | cons k rest ih => exact ih _ (stepAt_urlUnique parseRFC1123 k st h)

/-- C1: url uniqueness is an invariant of the pipeline. From a table in which no two
rows share a url, a run of `scrapeSource` on whatever was fetched, and any finite
sequence of cycles of `scrapeAllSources`, over any sources and feeds and under any
interleaving of the accesses of the concurrent workers, lead to a table in which no two
rows share a url. -/
theorem url_uniqueness_invariant (xmlDecode : String → Option RSS)
    (parseRFC1123 : String → Option Time) (db : DB) (h : UrlUnique db) :
    (∀ fetched env, UrlUnique (scrapeSource xmlDecode parseRFC1123 fetched env db).1) ∧
      (∀ cycles : List (List Source × List Nat),
        UrlUnique (runCycles xmlDecode parseRFC1123 cycles db)) := by
  constructor
  · intro fetched env
    obtain ⟨source, items, heq⟩ := scrapeSource_eq_loop xmlDecode parseRFC1123 fetched env db
    rw [heq]
    exact scrapeItems_urlUnique parseRFC1123 source env 0 items db h
  · intro cycles
    induction cycles generalizing db with
    | nil => exact h
    | cons c rest ih =>
      obtain ⟨sources, sched⟩ := c
      exact ih _ (runSchedule_urlUnique parseRFC1123 sched _ h)

/-- Two cycles from the sample table, the first with two workers racing on the same feed,
keep the urls pairwise distinct. -/
theorem url_uniqueness_invariant_witness :
    UrlUnique sampleDB ∧
      UrlUnique (runCycles sampleDecode sampleParse
        [([sampleSource, downSource, sampleSource], [0, 2, 0, 2, 0, 2, 0, 0, 2, 2, 2, 2]),
          ([sampleSource], [0, 0, 0])] sampleDB) :=
  ⟨by decide, (url_uniqueness_invariant sampleDecode sampleParse sampleDB (by decide)).2 _⟩
/-! ## A worker on its own is `scrapeSource` -/

theorem Worker.run_finished (parseRFC1123 : String → Option Time) (m : Nat) (w : Worker)
    (db : DB) (h : w.items = []) : Worker.run parseRFC1123 m w db = (w, db, []) := by
  cases m with
  | zero => rfl
  | succ m => simp [Worker.run, Worker.step, h]

theorem Worker.run_succ_of_step {parseRFC1123 : String → Option Time} {w w' : Worker}
    {db db' : DB} {evs : List Event} (n : Nat)
    (h : w.step parseRFC1123 db = some (w', db', evs)) :
    Worker.run parseRFC1123 (n + 1) w db =
      ((Worker.run parseRFC1123 n w' db').1, (Worker.run parseRFC1123 n w' db').2.1,
        evs ++ (Worker.run parseRFC1123 n w' db').2.2) := by
  simp only [Worker.run, h]

/-- Run alone and given enough steps, a worker at the head of its loop makes exactly the
accesses of `scrapeItems`, with the same effect on the table, and finishes. -/
theorem Worker.run_loop (parseRFC1123 : String → Option Time) (url : String)
    (env : Nat → ItemEnv) (source : String) (items : List Item) (idx : Nat) (db : DB) :
    ∃ n, n ≤ 3 * items.length ∧ ∀ m, n ≤ m →
      Worker.run parseRFC1123 m ⟨url, env, source, idx, items, .lookup⟩ db =
        (⟨url, env, source, idx + items.length, [], .lookup⟩,
          scrapeItems parseRFC1123 source env idx items db) := by
  induction items generalizing idx db with
  | nil =>
    refine ⟨0, le_rfl, fun m _ => ?_⟩
    rw [Worker.run_finished _ _ _ _ rfl]
    rfl
  | cons item rest ih =>
    obtain ⟨n, hn, ih⟩ := ih (idx + 1)
      (processItem parseRFC1123 source idx item (env idx) db).1
    refine ⟨n + 3, by simp only [List.length_cons]; omega, fun m hm => ?_⟩
    obtain ⟨m, rfl⟩ : ∃ m', m = m' + 3 := ⟨m - 3, by omega⟩
    have hidx : idx + 1 + rest.length = idx + (item :: rest).length := by
      simp only [List.length_cons]; omega
    have ho := processItem_outcome parseRFC1123 source idx item (env idx) db
    simp only [scrapeItems]
    generalize processItem parseRFC1123 source idx item (env idx) db = r at ho ih
    cases ho with
    | malformed h =>
      have s₁ : Worker.step parseRFC1123 ⟨url, env, source, idx, item :: rest, .lookup⟩ db =
          some (⟨url, env, source, idx + 1, rest, .lookup⟩, db, []) := by
        simp [Worker.step, h]
      rw [Worker.run_succ_of_step _ s₁, ih (m + 2) (by omega), hidx]
    | known hl ht hf =>
      have s₁ : Worker.step parseRFC1123 ⟨url, env, source, idx, item :: rest, .lookup⟩ db =
          some (⟨url, env, source, idx + 1, rest, .lookup⟩, db,
            [⟨idx, .lookup item.Link true⟩]) := by
        simp [Worker.step, hl, ht, hf]
      rw [Worker.run_succ_of_step _ s₁, ih (m + 2) (by omega), hidx]
    | rejected hl ht hf e he =>
      have hcr : db.create (mkNews parseRFC1123 source item (env idx).now) (env idx).createErr
          (env idx).stamp = .error e := by
        unfold DB.create
        rcases he with ⟨rfl, hc⟩ | ⟨rfl, hc, hd⟩
        · simp [hc]
        · simp [hc, mkNews, hd]
      have s₁ : Worker.step parseRFC1123 ⟨url, env, source, idx, item :: rest, .lookup⟩ db =
          some (⟨url, env, source, idx, item :: rest, .create⟩, db,
            [⟨idx, .lookup item.Link false⟩]) := by
        simp [Worker.step, hl, ht, hf]
      have s₂ : Worker.step parseRFC1123 ⟨url, env, source, idx, item :: rest, .create⟩ db =
          some (⟨url, env, source, idx + 1, rest, .lookup⟩, db,
            [⟨idx, .create (mkNews parseRFC1123 source item (env idx).now) (some e)⟩]) := by
        simp [Worker.step, hcr]
      rw [Worker.run_succ_of_step _ s₁, Worker.run_succ_of_step _ s₂, ih (m + 1) (by omega),
        hidx]
      rfl
    | saved hl ht hf hc hn =>
      have hcr : db.create (mkNews parseRFC1123 source item (env idx).now) (env idx).createErr
          (env idx).stamp = .ok (savedNews parseRFC1123 source item (env idx) db,
            insertedDB parseRFC1123 source item (env idx) db) := by
        unfold DB.create
        simp [hc, mkNews, hn, savedNews, insertedDB]
      have s₁ : Worker.step parseRFC1123 ⟨url, env, source, idx, item :: rest, .lookup⟩ db =
          some (⟨url, env, source, idx, item :: rest, .create⟩, db,
            [⟨idx, .lookup item.Link false⟩]) := by
        simp [Worker.step, hl, ht, hf]
      have s₂ : Worker.step parseRFC1123 ⟨url, env, source, idx, item :: rest, .create⟩ db =
          some (⟨url, env, source, idx, item :: rest,
              .publish (savedNews parseRFC1123 source item (env idx) db)⟩,
            insertedDB parseRFC1123 source item (env idx) db,
            [⟨idx, .create (savedNews parseRFC1123 source item (env idx) db) none⟩]) := by
        simp [Worker.step, hcr]
      have s₃ : Worker.step parseRFC1123 ⟨url, env, source, idx, item :: rest,
            .publish (savedNews parseRFC1123 source item (env idx) db)⟩
            (insertedDB parseRFC1123 source item (env idx) db) =
          some (⟨url, env, source, idx + 1, rest, .lookup⟩,
            insertedDB parseRFC1123 source item (env idx) db,
            sendToKafka idx (savedNews parseRFC1123 source item (env idx) db)
              (env idx).publishErr) := by
        simp [Worker.step]
      rw [Worker.run_succ_of_step _ s₁, Worker.run_succ_of_step _ s₂,
        Worker.run_succ_of_step _ s₃, ih m (by omega), hidx]
      rfl

theorem Worker.start_of_none (xmlDecode : String → Option RSS) (s : Source)
    (h : s.fetched = .netError ∨ ∃ status body, s.fetched = .response status body ∧
      xmlDecode body = none) :
    Worker.start xmlDecode s = ⟨s.url, s.env, "", 0, [], .lookup⟩ := by
  unfold Worker.start
  rcases h with h | ⟨status, body, h, hd⟩
  · rw [h]
  · rw [h]; simp only [hd]

theorem Worker.start_of_some (xmlDecode : String → Option RSS) (s : Source) (status : Nat)
    (body : String) (rss : RSS) (h : s.fetched = .response status body)
    (hd : xmlDecode body = some rss) :
    Worker.start xmlDecode s =
      ⟨s.url, s.env, rss.Channel.Title, 0, rss.Channel.Items, .lookup⟩ := by
  unfold Worker.start
  rw [h]; simp only [hd]

/-- Run alone and given enough steps, the worker of a source returns with the result of
`scrapeSource`. -/
theorem Worker.run_start (xmlDecode : String → Option RSS)
    (parseRFC1123 : String → Option Time) (s : Source) (db : DB) :
    ∃ n, ∀ m, n ≤ m →
      (Worker.run parseRFC1123 m (Worker.start xmlDecode s) db).1.finished = true ∧
      (Worker.run parseRFC1123 m (Worker.start xmlDecode s) db).2 =
        scrapeSource xmlDecode parseRFC1123 s.fetched s.env db := by
  cases hf : s.fetched with
  | netError =>
    rw [Worker.start_of_none xmlDecode s (Or.inl hf)]
    exact ⟨0, fun m _ => by rw [Worker.run_finished _ _ _ _ rfl]; exact ⟨rfl, rfl⟩⟩
  | response status body =>
    rcases hd : xmlDecode body with _ | rss
    · rw [Worker.start_of_none xmlDecode s (Or.inr ⟨status, body, hf, hd⟩)]
      refine ⟨0, fun m _ => ?_⟩
      rw [Worker.run_finished _ _ _ _ rfl]
      exact ⟨rfl, by simp [scrapeSource, hd]⟩
    · rw [Worker.start_of_some xmlDecode s status body rss hf hd]
      obtain ⟨n, _, h⟩ := Worker.run_loop parseRFC1123 s.url s.env rss.Channel.Title
        rss.Channel.Items 0 db
      refine ⟨n, fun m hm => ?_⟩
      rw [h m hm]
      exact ⟨rfl, by simp [scrapeSource, hd]⟩
/-! ## A worker that never steps can be removed -/

theorem List.eraseIdx_set_ne {α : Type} (l : List α) (f k : Nat) (a : α) (h : k ≠ f) :
    (l.set k a).eraseIdx f = (l.eraseIdx f).set (reindex f k) a := by
  apply List.ext_getElem?
  intro n
  simp only [List.getElem?_eraseIdx, List.getElem?_set, reindex, List.length_eraseIdx]
  split_ifs <;> first | rfl | omega

theorem List.getElem?_eraseIdx_reindex {α : Type} (l : List α) (f k : Nat) (h : k ≠ f) :
    (l.eraseIdx f)[reindex f k]? = l[k]? := by
  simp only [List.getElem?_eraseIdx, reindex]
  split_ifs <;> first | rfl | omega | (congr 1; omega)

theorem Worker.step_none_of_finished (parseRFC1123 : String → Option Time) (w : Worker)
    (db : DB) (h : w.items = []) : w.step parseRFC1123 db = none := by
  simp [Worker.step, h]

theorem stepAt_of_none (parseRFC1123 : String → Option Time) (k : Nat) (st : CycleState)
    (h : st.workers[k]? = none) : stepAt parseRFC1123 k st = st := by
  simp [stepAt, h]

theorem stepAt_of_step_none (parseRFC1123 : String → Option Time) (k : Nat) (st : CycleState)
    (w : Worker) (h : st.workers[k]? = some w) (hs : w.step parseRFC1123 st.db = none) :
    stepAt parseRFC1123 k st = st := by
  simp [stepAt, h, hs]

theorem stepAt_of_step (parseRFC1123 : String → Option Time) (k : Nat) (st : CycleState)
    (w w' : Worker) (db' : DB) (evs : List Event) (h : st.workers[k]? = some w)
    (hs : w.step parseRFC1123 st.db = some (w', db', evs)) :
    stepAt parseRFC1123 k st =
      { workers := st.workers.set k w', db := db',
        trace := st.trace ++ evs.map (fun e => (k, e)) } := by
  simp [stepAt, h, hs]

/-- A turn of a finished worker changes nothing. -/
theorem stepAt_finished (parseRFC1123 : String → Option Time) (f : Nat) (st : CycleState)
    (w₀ : Worker) (hf : st.workers[f]? = some w₀) (h₀ : w₀.items = []) :
    stepAt parseRFC1123 f st = st :=
  stepAt_of_step_none parseRFC1123 f st w₀ hf
    (Worker.step_none_of_finished parseRFC1123 w₀ st.db h₀)

/-- A turn of another worker commutes with taking the finished worker `f` out. -/
theorem stepAt_without (parseRFC1123 : String → Option Time) (f k : Nat) (st : CycleState)
    (w₀ : Worker) (hf : st.workers[f]? = some w₀) (hk : k ≠ f) :
    stepAt parseRFC1123 (reindex f k) (st.without f) = (stepAt parseRFC1123 k st).without f ∧
      (stepAt parseRFC1123 k st).workers[f]? = some w₀ := by
  have hget : (st.without f).workers[reindex f k]? = st.workers[k]? :=
    List.getElem?_eraseIdx_reindex st.workers f k hk
  cases hw : st.workers[k]? with
  | none =>
    rw [stepAt_of_none _ _ _ hw, stepAt_of_none _ _ _ (hget.trans hw)]
    exact ⟨rfl, hf⟩
  | some w =>
    cases hs : w.step parseRFC1123 st.db with
    | none =>
      rw [stepAt_of_step_none _ _ _ w hw hs,
        stepAt_of_step_none _ _ _ w (hget.trans hw) hs]
      exact ⟨rfl, hf⟩
    | some r =>
      obtain ⟨w', db', evs⟩ := r
      rw [stepAt_of_step _ _ _ w w' db' evs hw hs,
        stepAt_of_step _ _ _ w w' db' evs (hget.trans hw) hs]
      refine ⟨?_, ?_⟩
      · simp only [CycleState.without, List.eraseIdx_set_ne _ _ _ _ hk, List.map_append,
          List.map_map, Function.comp_def]
      · simp only [List.getElem?_set_ne hk, hf]

theorem runSchedule_cons (parseRFC1123 : String → Option Time) (k : Nat) (sched : List Nat)
    (st : CycleState) :
    runSchedule parseRFC1123 (k :: sched) st =
      runSchedule parseRFC1123 sched (stepAt parseRFC1123 k st) :=
  rfl

/-- Running a schedule commutes with taking a finished worker out. -/
theorem runSchedule_without (parseRFC1123 : String → Option Time) (f : Nat)
    (sched : List Nat) (st : CycleState) (w₀ : Worker) (hf : st.workers[f]? = some w₀)
    (h₀ : w₀.items = []) :
    runSchedule parseRFC1123 (dropWorker f sched) (st.without f) =
        (runSchedule parseRFC1123 sched st).without f ∧
      (runSchedule parseRFC1123 sched st).workers[f]? = some w₀ := by
  induction sched generalizing st with
  | nil => exact ⟨rfl, hf⟩
  | cons k rest ih =>
    rw [runSchedule_cons]
    by_cases hk : k = f
    · subst hk
      have hdrop : dropWorker k (k :: rest) = dropWorker k rest := by
        simp [dropWorker]
      rw [hdrop, stepAt_finished parseRFC1123 k st w₀ hf h₀]
      exact ih st hf
    · have hdrop : dropWorker f (k :: rest) = reindex f k :: dropWorker f rest := by
        simp [dropWorker, hk]
      obtain ⟨h1, h2⟩ := stepAt_without parseRFC1123 f k st w₀ hf hk
      rw [hdrop, runSchedule_cons, h1]
      exact ih _ h2

theorem dropWorker_liftSchedule (f : Nat) (sched : List Nat) :
    dropWorker f (liftSchedule f sched) = sched := by
  induction sched with
  | nil => rfl
  | cons k rest ih =>
    simp only [dropWorker, liftSchedule, List.map_cons] at ih ⊢
    by_cases hk : k < f
    · have : k ≠ f := by omega
      simp only [hk, if_true, List.filter_cons, this, ne_eq, not_false_eq_true, decide_True,
        List.map_cons, reindex, ih]
    · have h1 : k + 1 ≠ f := by omega
      have h2 : ¬ k + 1 < f := by omega
      simp only [hk, if_false, List.filter_cons, h1, ne_eq, not_false_eq_true, decide_True,
        if_true, List.map_cons, reindex, h2, Nat.add_sub_cancel, ih]

/-- The events of a cycle do not change when a worker is taken out, and no event belongs
to a worker that was finished from the start. -/
theorem CycleState.events_without (f : Nat) (st : CycleState) :
    (st.without f).events = st.events := by
  simp [CycleState.without, CycleState.events, List.map_map, Function.comp_def]

theorem CycleState.complete_without (f : Nat) (st : CycleState) (w₀ : Worker)
    (hf : st.workers[f]? = some w₀) (h₀ : w₀.items = []) :
    (st.without f).complete ↔ st.complete := by
  unfold CycleState.complete CycleState.without
  simp only [List.mem_eraseIdx_iff_getElem?]
  constructor
  · intro h w hw
    obtain ⟨i, hi⟩ := List.mem_iff_getElem?.mp hw
    by_cases hif : i = f
    · subst hif
      rw [hf] at hi
      cases hi
      simp [Worker.finished, h₀]
    · exact h w ⟨i, hif, hi⟩
  · rintro h w ⟨i, _, hi⟩
    exact h w (List.mem_iff_getElem?.mpr ⟨i, hi⟩)
/-- A worker that was finished from the start makes no access. -/
theorem runSchedule_trace_finished (parseRFC1123 : String → Option Time) (f : Nat)
    (sched : List Nat) (st : CycleState) (w₀ : Worker) (hf : st.workers[f]? = some w₀)
    (h₀ : w₀.items = []) :
    ∀ p ∈ (runSchedule parseRFC1123 sched st).trace, p.1 = f → p ∈ st.trace := by
  induction sched generalizing st with
  | nil => exact fun p hp _ => hp
  | cons k rest ih =>
    rw [runSchedule_cons]
    by_cases hk : k = f
    · subst hk
      rw [stepAt_finished parseRFC1123 k st w₀ hf h₀]
      exact ih st hf
    · intro p hp hpf
      have hmem := ih _ (stepAt_without parseRFC1123 f k st w₀ hf hk).2 p hp hpf
      cases hw : st.workers[k]? with
      | none => rwa [stepAt_of_none _ _ _ hw] at hmem
      | some w =>
        cases hs : w.step parseRFC1123 st.db with
        | none => rwa [stepAt_of_step_none _ _ _ w hw hs] at hmem
        | some r =>
          obtain ⟨w', db', evs⟩ := r
          rw [stepAt_of_step _ _ _ w w' db' evs hw hs] at hmem
          simp only [List.mem_append, List.mem_map] at hmem
          rcases hmem with hmem | ⟨e, _, rfl⟩
          · exact hmem
          · exact absurd hpf hk

theorem launch_append (xmlDecode : String → Option RSS) (a b : List Source) :
    launch xmlDecode (a ++ b) = launch xmlDecode a ++ launch xmlDecode b := by
  simp [launch, List.filter_append]

theorem launch_cons_of_url (xmlDecode : String → Option RSS) (s : Source) (rest : List Source)
    (h : s.url ≠ "") :
    launch xmlDecode (s :: rest) = Worker.start xmlDecode s :: launch xmlDecode rest := by
  simp [launch, List.filter_cons, h]

/-- The outcome of a cycle is the outcome of the cycle without a worker that was finished
from the start, under the schedule without its turns. -/
theorem runSchedule_sameOutcome (parseRFC1123 : String → Option Time) (f : Nat)
    (sched : List Nat) (st : CycleState) (w₀ : Worker) (hf : st.workers[f]? = some w₀)
    (h₀ : w₀.items = []) :
    (runSchedule parseRFC1123 sched st).sameOutcome
      (runSchedule parseRFC1123 (dropWorker f sched) (st.without f)) := by
  obtain ⟨h1, h2⟩ := runSchedule_without parseRFC1123 f sched st w₀ hf h₀
  rw [h1]
  have hev := CycleState.events_without f (runSchedule parseRFC1123 sched st)
  refine ⟨rfl, hev.symm, by rw [hev], by rw [hev], ?_⟩
  exact (CycleState.complete_without f _ w₀ h2 h₀).symm

/-- C6: the failure of one source is isolated. When the fetch of a configured source
fails, its worker makes no access to the store or to Kafka: `scrapeSource` returns with
the table unchanged and an empty trace, and no access of the cycle belongs to that worker.
Under every interleaving, the cycle of `scrapeAllSources` over the whole list has the
outcome (final table, accesses, rows inserted, messages published, completion) of the
cycle over the list without the failing source in which the other workers take the same
turns; and every interleaving of the cycle without the failing source is obtained so. -/
theorem failed_source_isolated (xmlDecode : String → Option RSS)
    (parseRFC1123 : String → Option Time) (pre : List Source) (s : Source)
    (post : List Source) (db : DB) (hurl : s.url ≠ "") (hfail : s.fetched = .netError) :
    scrapeSource xmlDecode parseRFC1123 s.fetched s.env db = (db, []) ∧
      (∀ sched,
        (∀ p ∈ (scrapeAllSources xmlDecode parseRFC1123 (pre ++ s :: post) sched db).trace,
          p.1 ≠ (launch xmlDecode pre).length) ∧
        (scrapeAllSources xmlDecode parseRFC1123 (pre ++ s :: post) sched db).sameOutcome
          (scrapeAllSources xmlDecode parseRFC1123 (pre ++ post)
            (dropWorker (launch xmlDecode pre).length sched) db)) ∧
      (∀ sched',
        (scrapeAllSources xmlDecode parseRFC1123 (pre ++ s :: post)
            (liftSchedule (launch xmlDecode pre).length sched') db).sameOutcome
          (scrapeAllSources xmlDecode parseRFC1123 (pre ++ post) sched' db)) := by
  have hstart : (Worker.start xmlDecode s).items = [] := by
    rw [Worker.start_of_none xmlDecode s (Or.inl hfail)]
  have hws : launch xmlDecode (pre ++ s :: post) =
      launch xmlDecode pre ++ Worker.start xmlDecode s :: launch xmlDecode post := by
    rw [launch_append, launch_cons_of_url xmlDecode s post hurl]
  have hget : (launch xmlDecode (pre ++ s :: post))[(launch xmlDecode pre).length]? =
      some (Worker.start xmlDecode s) := by
    rw [hws, List.getElem?_append_right le_rfl]
    simp
  have herase : (launch xmlDecode (pre ++ s :: post)).eraseIdx (launch xmlDecode pre).length =
      launch xmlDecode (pre ++ post) := by
    rw [hws, List.eraseIdx_append_of_length_le le_rfl, launch_append]
    simp
  have hwithout : ({ workers := launch xmlDecode (pre ++ s :: post), db := db, trace := [] } :
      CycleState).without (launch xmlDecode pre).length =
      { workers := launch xmlDecode (pre ++ post), db := db, trace := [] } := by
    simp only [CycleState.without, herase, List.map_nil]
  have hmain : ∀ sched,
      (scrapeAllSources xmlDecode parseRFC1123 (pre ++ s :: post) sched db).sameOutcome
        (scrapeAllSources xmlDecode parseRFC1123 (pre ++ post)
          (dropWorker (launch xmlDecode pre).length sched) db) := by
    intro sched
    have := runSchedule_sameOutcome parseRFC1123 (launch xmlDecode pre).length sched
      { workers := launch xmlDecode (pre ++ s :: post), db := db, trace := [] }
      (Worker.start xmlDecode s) hget hstart
    rw [hwithout] at this
    exact this
  refine ⟨by rw [hfail]; rfl, fun sched => ⟨?_, hmain sched⟩, fun sched' => ?_⟩
  · intro p hp hpf
    have := runSchedule_trace_finished parseRFC1123 (launch xmlDecode pre).length sched
      { workers := launch xmlDecode (pre ++ s :: post), db := db, trace := [] }
      (Worker.start xmlDecode s) hget hstart p hp hpf
    simp at this
  · have := hmain (liftSchedule (launch xmlDecode pre).length sched')
    rwa [dropWorker_liftSchedule] at this

/-- A cycle over three sources whose second fetch fails has the outcome of the cycle over
the two others. -/
theorem failed_source_isolated_witness :
    downSource.url ≠ "" ∧ downSource.fetched = .netError ∧
      (scrapeAllSources sampleDecode sampleParse ([sampleSource] ++ downSource :: [sampleSource])
          [0, 1, 2, 0, 2, 1, 0, 2, 0, 0, 2, 2, 2] emptyDB).sameOutcome
        (scrapeAllSources sampleDecode sampleParse ([sampleSource] ++ [sampleSource])
          (dropWorker (launch sampleDecode [sampleSource]).length
            [0, 1, 2, 0, 2, 1, 0, 2, 0, 0, 2, 2, 2]) emptyDB) :=
  ⟨by decide, rfl, ((failed_source_isolated sampleDecode sampleParse [sampleSource] downSource
    [sampleSource] emptyDB (by decide) rfl).2.1 [0, 1, 2, 0, 2, 1, 0, 2, 0, 0, 2, 2, 2]).2⟩

/-! ## Publish failures change nothing but the logged error -/

theorem processItem_allPublishOk (parseRFC1123 : String → Option Time) (source : String)
    (i : Nat) (item : Item) (env : ItemEnv) (db : DB) :
    processItem parseRFC1123 source i item { env with publishErr := false } db =
      ((processItem parseRFC1123 source i item env db).1,
        (processItem parseRFC1123 source i item env db).2.map Event.publishOk) := by
  unfold processItem
  split
  · rfl
  · split
    · rfl
    · dsimp only
      generalize db.create (mkNews parseRFC1123 source item env.now) env.createErr env.stamp = c
      cases c with
      | error e => rfl
      | ok v => rfl

theorem scrapeItems_allPublishOk (parseRFC1123 : String → Option Time) (source : String)
    (env : Nat → ItemEnv) (i : Nat) (items : List Item) (db : DB) :
    scrapeItems parseRFC1123 source (allPublishOk env) i items db =
      ((scrapeItems parseRFC1123 source env i items db).1,
        (scrapeItems parseRFC1123 source env i items db).2.map Event.publishOk) := by
  induction items generalizing i db with
  | nil => rfl
  | cons item rest ih =>
    have h := processItem_allPublishOk parseRFC1123 source i item (env i) db
    simp only [scrapeItems, allPublishOk] at h ⊢
    rw [h]
    have ih' := ih (i + 1) (processItem parseRFC1123 source i item (env i) db).1
    simp only [allPublishOk] at ih'
    rw [ih', List.map_append]

theorem scrapeSource_allPublishOk (xmlDecode : String → Option RSS)
    (parseRFC1123 : String → Option Time) (fetched : FetchResult) (env : Nat → ItemEnv)
    (db : DB) :
    scrapeSource xmlDecode parseRFC1123 fetched (allPublishOk env) db =
      ((scrapeSource xmlDecode parseRFC1123 fetched env db).1,
        (scrapeSource xmlDecode parseRFC1123 fetched env db).2.map Event.publishOk) := by
  cases fetched with
  | netError => rfl
  | response status body =>
    rcases hd : xmlDecode body with _ | rss
    · simp [scrapeSource, hd]
    · simp only [scrapeSource, hd]
      exact scrapeItems_allPublishOk parseRFC1123 _ env 0 _ db

theorem Event.created_publishOk (e : Event) : e.publishOk.op.created = e.op.created := by
  obtain ⟨i, op⟩ := e
  cases op <;> rfl

theorem Event.message_publishOk (e : Event) : e.publishOk.op.message = e.op.message := by
  obtain ⟨i, op⟩ := e
  cases op <;> rfl

theorem persisted_map_publishOk (t : List Event) :
    persisted (t.map Event.publishOk) = persisted t := by
  simp only [persisted, List.filterMap_map, Function.comp_def, Event.created_publishOk]

theorem published_map_publishOk (t : List Event) :
    published (t.map Event.publishOk) = published t := by
  simp only [published, List.filterMap_map, Function.comp_def, Event.message_publishOk]

/-- C11: a publish failure neither rolls back nor aborts. Whatever was fetched and
whichever Kafka writes fail, the run of `scrapeSource` ends with the table of the run in
which every Kafka write succeeds, and makes the same accesses in the same order, the failed
writes included: the two traces differ only in the error of the Kafka writes. So every
later item is processed as it would be, and the row whose publish failed is in the table
after the run. -/
theorem publish_failure_keeps_store (xmlDecode : String → Option RSS)
    (parseRFC1123 : String → Option Time) (fetched : FetchResult) (env : Nat → ItemEnv)
    (db : DB) :
    (scrapeSource xmlDecode parseRFC1123 fetched env db).1 =
        (scrapeSource xmlDecode parseRFC1123 fetched (allPublishOk env) db).1 ∧
      (scrapeSource xmlDecode parseRFC1123 fetched (allPublishOk env) db).2 =
        (scrapeSource xmlDecode parseRFC1123 fetched env db).2.map Event.publishOk ∧
      persisted (scrapeSource xmlDecode parseRFC1123 fetched env db).2 =
        persisted (scrapeSource xmlDecode parseRFC1123 fetched (allPublishOk env) db).2 ∧
      published (scrapeSource xmlDecode parseRFC1123 fetched env db).2 =
        published (scrapeSource xmlDecode parseRFC1123 fetched (allPublishOk env) db).2 ∧
      (∀ i msg, (⟨i, .publish msg false⟩ : Event) ∈
          (scrapeSource xmlDecode parseRFC1123 fetched env db).2 →
        ∃ n ∈ persisted (scrapeSource xmlDecode parseRFC1123 fetched env db).2,
          msg = kafkaMessage n ∧
          n ∈ (scrapeSource xmlDecode parseRFC1123 fetched env db).1.rows) := by
  rw [scrapeSource_allPublishOk]
  refine ⟨rfl, rfl, (persisted_map_publishOk _).symm, (published_map_publishOk _).symm, ?_⟩
  intro i msg hmem
  obtain ⟨source, items, heq⟩ := scrapeSource_eq_loop xmlDecode parseRFC1123 fetched env db
  rw [heq] at hmem ⊢
  have hpub : msg ∈ published (scrapeItems parseRFC1123 source env 0 items db).2 := by
    simp only [published, List.mem_filterMap]
    exact ⟨_, hmem, rfl⟩
  rw [scrapeItems_published] at hpub
  obtain ⟨n, hn, hmsg⟩ := List.mem_map.mp hpub
  refine ⟨n, hn, hmsg.symm, ?_⟩
  rw [scrapeItems_rows]
  exact List.mem_append_right _ hn

/-! ## The run only appends -/

/-- C13: the pipeline never mutates or deletes an article. Whatever was fetched, the table
after a run of `scrapeSource` is the table before it followed by the rows the run
inserted: every row present before is present after, at the same position and with every
field unchanged. -/
theorem run_only_appends (xmlDecode : String → Option RSS)
    (parseRFC1123 : String → Option Time) (fetched : FetchResult) (env : Nat → ItemEnv)
    (db : DB) :
    (scrapeSource xmlDecode parseRFC1123 fetched env db).1.rows =
        db.rows ++ persisted (scrapeSource xmlDecode parseRFC1123 fetched env db).2 ∧
      (scrapeSource xmlDecode parseRFC1123 fetched env db).1.rows.take db.rows.length =
        db.rows ∧
      (∀ n ∈ db.rows, n ∈ (scrapeSource xmlDecode parseRFC1123 fetched env db).1.rows) ∧
      (∀ (k : Nat) (n : News), db.rows[k]? = some n →
        (scrapeSource xmlDecode parseRFC1123 fetched env db).1.rows[k]? = some n) := by
  obtain ⟨source, items, heq⟩ := scrapeSource_eq_loop xmlDecode parseRFC1123 fetched env db
  rw [heq]
  have hrows := scrapeItems_rows parseRFC1123 source env 0 items db
  refine ⟨hrows, ?_, ?_, ?_⟩
  · rw [hrows, List.take_left]
  · intro n hn
    rw [hrows]
    exact List.mem_append_left _ hn
  · intro k n hk
    rw [hrows, List.getElem?_append_left (List.getElem?_eq_some.mp hk).1]
    exact hk

/-! ## The cycle coordinator -/

theorem Worker.start_url (xmlDecode : String → Option RSS) (s : Source) :
    (Worker.start xmlDecode s).url = s.url := by
  unfold Worker.start
  cases s.fetched with
  | netError => rfl
  | response status body =>
    dsimp only
    cases xmlDecode body <;> rfl

theorem loadNewsSources_unset (environ : String → String)
    (h : environ "NEWS_SOURCES" = "") : loadNewsSources environ = [""] := by
  simp [loadNewsSources, getEnv, h, splitOnChar]

/-- C14: one worker per non-empty source. For every list of configured sources,
`scrapeAllSources` calls `scrapeSource` once for each entry with a non-empty url, in the
order of the list, and never for an empty entry: the urls passed are the configured urls
without the empty ones. When `NEWS_SOURCES` is unset, `config.Load` gives the list with
one empty entry, for which no worker is launched. -/
theorem one_worker_per_nonempty_source (xmlDecode : String → Option RSS)
    (sources : List Source) :
    scrapedUrls xmlDecode sources =
        (sources.map Source.url).filter (fun u => decide (u ≠ "")) ∧
      (launch xmlDecode sources).length =
        ((sources.map Source.url).filter (fun u => decide (u ≠ ""))).length ∧
      (∀ environ : String → String, environ "NEWS_SOURCES" = "" →
        loadNewsSources environ = [""] ∧
        (sources.map Source.url = loadNewsSources environ → launch xmlDecode sources = [])) := by
  have hurls : scrapedUrls xmlDecode sources =
      (sources.map Source.url).filter (fun u => decide (u ≠ "")) := by
    unfold scrapedUrls launch
    induction sources with
    | nil => rfl
    | cons s rest ih =>
      by_cases hs : s.url = ""
      · simpa [List.filter_cons, hs] using ih
      · simpa [List.filter_cons, hs, Worker.start_url] using ih
  refine ⟨hurls, ?_, fun environ henv => ⟨loadNewsSources_unset environ henv, fun hsrc => ?_⟩⟩
  · rw [← hurls, scrapedUrls, List.length_map]
  · have hlen := congrArg List.length hurls
    rw [hsrc, loadNewsSources_unset environ henv] at hlen
    simp only [scrapedUrls, List.length_map] at hlen
    exact List.length_eq_zero.mp (by simpa using hlen)

/-! ## Pagination -/

/-- The page and the limit of the window are always normalised. -/
theorem pageWindow_page_limit (page limit : Int) :
    1 ≤ (pageWindow page limit).page ∧
      ((pageWindow page limit).page = if page < 1 then 1 else page) ∧
      1 ≤ (pageWindow page limit).limit ∧ (pageWindow page limit).limit ≤ 100 ∧
      ((pageWindow page limit).limit = if limit < 1 ∨ limit > 100 then 20 else limit) := by
  unfold pageWindow
  dsimp only
  refine ⟨?_, rfl, ?_, ?_, rfl⟩
  · split_ifs <;> omega
  · split_ifs <;> omega
  · split_ifs <;> omega

/-- The offset is `(page - 1) * limit` and non-negative as long as that product fits in
an `int`. -/
theorem pageWindow_offset_of_fits (page limit : Int) (hmax : page ≤ maxInt)
    (hfit : ((pageWindow page limit).page - 1) * (pageWindow page limit).limit ≤ maxInt) :
    (pageWindow page limit).offset =
        ((pageWindow page limit).page - 1) * (pageWindow page limit).limit ∧
      0 ≤ (pageWindow page limit).offset := by
  obtain ⟨hp, hpe, hl1, hl2, hle⟩ := pageWindow_page_limit page limit
  have hoff : (pageWindow page limit).offset =
      wrapInt (wrapInt ((pageWindow page limit).page - 1) * (pageWindow page limit).limit) := rfl
  have hpm : (pageWindow page limit).page ≤ maxInt := by
    rw [hpe]; unfold maxInt at *; split_ifs <;> omega
  have hw1 : wrapInt ((pageWindow page limit).page - 1) = (pageWindow page limit).page - 1 := by
    unfold wrapInt maxInt at *
    omega
  have hnn : 0 ≤ ((pageWindow page limit).page - 1) * (pageWindow page limit).limit :=
    mul_nonneg (by omega) (by omega)
  rw [hoff, hw1]
  generalize ((pageWindow page limit).page - 1) * (pageWindow page limit).limit = x at hfit hnn
  unfold wrapInt maxInt at *
  constructor <;> omega

/-- C16, at the largest `int`: for `page = 9223372036854775807` and `limit = 20` the page
and the limit are kept, but the product `(page - 1) * limit` overflows and the offset that
`getNews` and `getNewsBySource` pass to the query is `-40`. -/
theorem offset_negative_on_max_page :
    pageWindow maxInt 20 = { page := 9223372036854775807, limit := 20, offset := -40 } ∧
      (pageWindow maxInt 20).offset < 0 ∧
      (pageWindow maxInt 20).offset ≠
        ((pageWindow maxInt 20).page - 1) * (pageWindow maxInt 20).limit := by
  decide

/-! ## Cycles do not overlap -/

/-- From any state of the scheduler, the number of calls in progress stays at most one:
it is one exactly while the goroutine is inside a call. -/
theorem Scheduler.runFrom_depths (s : Scheduler) (inputs : List SchedInput) :
    ∀ d ∈ depths s.pc.inProgress (Scheduler.runFrom s inputs), d ≤ 1 := by
  induction inputs generalizing s with
  | nil => simp [Scheduler.runFrom, depths]
  | cons i rest ih =>
    have h1 := ih { pc := .cycle, tickPending := true }
    have h2 := ih { pc := .cycle, tickPending := false }
    have h3 := ih { pc := .select, tickPending := true }
    have h4 := ih { pc := .select, tickPending := false }
    have h5 := ih { pc := .returned, tickPending := true }
    have h6 := ih { pc := .returned, tickPending := false }
    simp only [SchedPc.inProgress] at h1 h2 h3 h4 h5 h6
    obtain ⟨pc, pending⟩ := s
    cases i <;> cases pc <;> cases pending <;>
      simp only [Scheduler.runFrom, Scheduler.step, List.nil_append, List.singleton_append,
        depths, List.mem_cons, forall_eq_or_imp, SchedPc.inProgress, Nat.zero_add,
        Nat.sub_self] <;>
      first
        | assumption
        | exact ⟨by decide, by assumption⟩

/-- C15, as the code has it: calls of `scrapeAllSources` never overlap. In every execution
of `startScraping`, at most one call of `scrapeAllSources` is in progress at any moment. A
tick that fires during a cycle starts nothing: it waits in the ticker channel, further
ticks are dropped, and the next call begins only after the running call has returned and
the `select` has received the tick. -/
theorem cycles_never_overlap (inputs : List SchedInput) :
    (∀ d ∈ depths 0 (startScraping inputs), d ≤ 1) ∧
      ¬ cyclesOverlap (startScraping inputs) ∧
      (∀ pending, (Scheduler.step { pc := .cycle, tickPending := pending } .tick) =
        ({ pc := .cycle, tickPending := true }, [])) ∧
      startScraping [.tick, .tick, .tick, .cycleReturns, .receiveTick, .receiveTick] =
        [.callBegins, .callReturns, .callBegins] := by
  have h : ∀ d ∈ depths 0 (startScraping inputs), d ≤ 1 := by
    intro d hd
    simp only [startScraping, depths, List.mem_cons] at hd
    rcases hd with rfl | hd
    · decide
    · exact Scheduler.runFrom_depths { pc := .cycle, tickPending := false } inputs d hd
  refine ⟨h, ?_, fun pending => rfl, by decide⟩
  rintro ⟨d, hd, h2⟩
  have := h d hd
  omega

/-- C15 as stated fails: there is no execution of `startScraping` in which a call of
`scrapeAllSources` begins before the previous call has returned. -/
theorem no_execution_overlaps : ¬ ∃ inputs : List SchedInput, cyclesOverlap (startScraping inputs) := by
  rintro ⟨inputs, d, hd, h2⟩
  have hle : d ≤ 1 := by
    simp only [startScraping, depths, List.mem_cons] at hd
    rcases hd with rfl | hd
    · decide
    · exact Scheduler.runFrom_depths { pc := .cycle, tickPending := false } inputs d hd
  omega

/-! ## Steps of a worker, case by case -/

theorem Worker.step_outcome {parseRFC1123 : String → Option Time} {w : Worker} {db : DB}
    {r : Worker × DB × List Event} (h : w.step parseRFC1123 db = some r) :
    StepOutcome parseRFC1123 w db r := by
  unfold Worker.step at h
  cases hitems : w.items with
  | nil => simp [hitems] at h
  | cons item rest =>
    simp only [hitems] at h
    cases hpc : w.pc with
    | lookup =>
      simp only [hpc] at h
      by_cases hm : item.Link = "" ∨ item.Title = ""
      · rw [if_pos hm] at h
        cases h
        exact .skip item rest hitems hpc hm
      · rw [if_neg hm] at h
        have hw : item.wellFormed := by unfold Item.wellFormed; tauto
        by_cases hf : lookupFound db item.Link (w.env w.idx).lookupErr = true
        · rw [if_pos hf] at h
          cases h
          exact .known item rest hitems hpc hw hf
        · rw [if_neg hf] at h
          cases h
          have e := @StepOutcome.miss parseRFC1123 w db item rest hitems
            hpc hw (by simpa using hf)
          rw [hitems] at e
          exact e
    | create =>
      simp only [hpc] at h
      unfold DB.create at h
      by_cases hc : (w.env w.idx).createErr = true
      · simp only [hc, if_true] at h
        cases h
        exact .rejected item rest hitems hpc _ (Or.inl ⟨rfl, hc⟩)
      · have hc' : (w.env w.idx).createErr = false := by simpa using hc
        by_cases hd : item.Link ∈ db.urls
        · simp only [hc', mkNews, hd, if_true, Bool.false_eq_true, if_false] at h
          cases h
          exact .rejected item rest hitems hpc _ (Or.inr ⟨rfl, hc', hd⟩)
        · simp only [hc', mkNews, hd, if_false, Bool.false_eq_true] at h
          cases h
          have e := @StepOutcome.saved parseRFC1123 w db item rest hitems hpc hc' hd
          rw [hitems] at e
          exact e
    | publish row =>
      simp only [hpc] at h
      cases h
      exact .sent item rest hitems row hpc

/-- A turn of worker `k` either changes nothing or is one step of that worker. -/
theorem stepAt_cases (parseRFC1123 : String → Option Time) (k : Nat) (st : CycleState) :
    (stepAt parseRFC1123 k st = st ∧ sentAt k st = []) ∨
      ∃ w r, st.workers[k]? = some w ∧ sentAt k st = w.pending ∧
        StepOutcome parseRFC1123 w st.db r ∧
        stepAt parseRFC1123 k st =
          { workers := st.workers.set k r.1, db := r.2.1,
            trace := st.trace ++ r.2.2.map (fun e => (k, e)) } := by
  cases hw : st.workers[k]? with
  | none => exact Or.inl ⟨stepAt_of_none _ _ _ hw, by simp [sentAt, hw]⟩
  | some w =>
    cases hs : w.step parseRFC1123 st.db with
    | none =>
      refine Or.inl ⟨stepAt_of_step_none _ _ _ w hw hs, ?_⟩
      have hitems : w.items = [] := by
        cases hi : w.items with
        | nil => rfl
        | cons item rest =>
          exfalso
          unfold Worker.step at hs
          simp only [hi] at hs
          cases hpc : w.pc with
          | lookup => simp only [hpc] at hs; split_ifs at hs
          | create =>
            simp only [hpc] at hs
            cases hc : st.db.create (mkNews parseRFC1123 w.source item (w.env w.idx).now)
              (w.env w.idx).createErr (w.env w.idx).stamp <;> simp [hc] at hs
          | publish row => simp [hpc] at hs
      simp [sentAt, hw, Worker.pending, hitems]
    | some r =>
      obtain ⟨w', db', evs⟩ := r
      exact Or.inr ⟨w, (w', db', evs), rfl, by simp [sentAt, hw], Worker.step_outcome hs,
        stepAt_of_step _ _ _ w w' db' evs hw hs⟩

/-- A property of the state of a cycle that every turn preserves holds after a schedule. -/
theorem runSchedule_induction (parseRFC1123 : String → Option Time) (P : CycleState → Prop)
    (step : ∀ k st, P st → P (stepAt parseRFC1123 k st)) (sched : List Nat)
    (st : CycleState) (h : P st) : P (runSchedule parseRFC1123 sched st) := by
  induction sched generalizing st with
  | nil => exact h
  | cons k rest ih => exact ih _ (step k st h)

theorem CycleState.events_step (st : CycleState) (k : Nat) (ws : List Worker) (db : DB)
    (evs : List Event) :
    ({ workers := ws, db := db, trace := st.trace ++ evs.map (fun e => (k, e)) } :
      CycleState).events = st.events ++ evs := by
  simp [CycleState.events, List.map_map, Function.comp_def]

/-- What one step of a worker inserts: nothing, or one row with a url that was not in the
table. -/
theorem StepOutcome.persisted_eq {parseRFC1123 : String → Option Time} {w : Worker} {db : DB}
    {r : Worker × DB × List Event} (h : StepOutcome parseRFC1123 w db r) :
    r.2.1.rows = db.rows ++ persisted r.2.2 ∧
      (persisted r.2.2 = [] ∨ ∃ n, persisted r.2.2 = [n] ∧ n.URL ∉ db.urls) := by
  cases h with
  | skip item rest hi hpc hm => simp [persisted]
  | known item rest hi hpc hw hf => simp [persisted, Op.created]
  | miss item rest hi hpc hw hf => simp [persisted, Op.created]
  | rejected item rest hi hpc e he => simp [persisted, Op.created]
  | saved item rest hi hpc hc hn =>
    refine ⟨by simp [persisted, Op.created, insertedDB],
      Or.inr ⟨savedNews parseRFC1123 w.source item (w.env w.idx) db,
        by simp [persisted, Op.created], hn⟩⟩
  | sent item rest hi row hpc => simp [persisted, Op.created, sendToKafka]

/-- Every turn keeps the table equal to the initial table followed by the rows inserted
during the cycle, whose urls are pairwise distinct and were not in the initial table. -/
theorem stepAt_rowsFrom (parseRFC1123 : String → Option Time) (db₀ : DB) (k : Nat)
    (st : CycleState) (h : st.rowsFrom db₀) : (stepAt parseRFC1123 k st).rowsFrom db₀ := by
  rcases stepAt_cases parseRFC1123 k st with ⟨hs, _⟩ | ⟨w, r, _, _, ho, hs⟩
  · rw [hs]; exact h
  · rw [hs]
    obtain ⟨hrows, hnodup, hfresh⟩ := h
    obtain ⟨hr, hp⟩ := ho.persisted_eq
    unfold CycleState.rowsFrom
    rw [CycleState.events_step, persisted_append]
    rcases hp with hp | ⟨n, hp, hn⟩
    · rw [hp, List.append_nil] at hr ⊢
      exact ⟨hr.trans hrows, hnodup, hfresh⟩
    · rw [hp] at hr ⊢
      have hurls : st.db.urls = db₀.urls ++ (persisted st.events).map News.URL := by
        simp only [DB.urls, hrows, List.map_append]
      rw [hurls, List.mem_append, not_or] at hn
      refine ⟨by rw [hr, hrows, List.append_assoc], ?_, ?_⟩
      · rw [List.map_append, List.map_singleton]
        refine List.Nodup.append hnodup (List.nodup_singleton _) ?_
        intro v hv hv'
        rw [List.mem_singleton] at hv'
        subst hv'
        exact hn.2 hv
      · intro v hv
        rw [List.map_append, List.mem_append, List.map_singleton, List.mem_singleton] at hv
        rcases hv with hv | rfl
        · exact hfresh v hv
        · exact hn.1

/-! ## Rows stored and rows published during a cycle -/

theorem List.sum_map_set {α : Type} (f : α → Nat) (l : List α) (k : Nat) (a b : α)
    (h : l[k]? = some a) : ((l.set k b).map f).sum + f a = (l.map f).sum + f b := by
  induction l generalizing k with
  | nil => simp at h
  | cons x l ih =>
    cases k with
    | zero =>
      simp only [List.getElem?_cons_zero, Option.some.injEq] at h
      subst h
      simp only [List.set_cons_zero, List.map_cons, List.sum_cons]
      omega
    | succ k =>
      simp only [List.getElem?_cons_succ] at h
      have := ih k h
      simp only [List.set_cons_succ, List.map_cons, List.sum_cons]
      omega

theorem countUrl_append (u : String) (a b : List News) :
    countUrl u (a ++ b) = countUrl u a + countUrl u b := by
  simp [countUrl, List.filter_append]

/-- After its step a worker holds an unpublished row exactly when the step stored one, and
the step publishes exactly the row it held. -/
theorem StepOutcome.pending_eq {parseRFC1123 : String → Option Time} {w : Worker} {db : DB}
    {r : Worker × DB × List Event} (h : StepOutcome parseRFC1123 w db r) :
    r.1.pending = persisted r.2.2 ∧ published r.2.2 = w.pending.map kafkaMessage := by
  cases h with
  | skip item rest hi hpc hm => simp [persisted, published, Worker.pending, hpc]
  | known item rest hi hpc hw hf =>
    simp [persisted, published, Worker.pending, hpc, Op.created, Op.message]
  | miss item rest hi hpc hw hf =>
    simp [persisted, published, Worker.pending, hpc, Op.created, Op.message]
  | rejected item rest hi hpc e he =>
    simp [persisted, published, Worker.pending, hpc, Op.created, Op.message]
  | saved item rest hi hpc hc hn =>
    simp [persisted, published, Worker.pending, hpc, hi, Op.created, Op.message]
  | sent item rest hi row hpc =>
    simp [persisted, published, Worker.pending, hpc, hi, Op.created, Op.message, sendToKafka]

/-- One turn: the rows published so far and the rows stored but not yet published make up
the rows stored so far, url by url. -/
theorem stepAt_count (parseRFC1123 : String → Option Time) (u : String) (k : Nat)
    (st : CycleState) :
    countUrl u (sentAt k st) + pendingCount u (stepAt parseRFC1123 k st).workers +
        countUrl u (persisted st.events) =
      pendingCount u st.workers +
        countUrl u (persisted (stepAt parseRFC1123 k st).events) := by
  rcases stepAt_cases parseRFC1123 k st with ⟨hs, hsent⟩ | ⟨w, r, hw, hsent, ho, hs⟩
  · rw [hs, hsent]
    simp [countUrl]
  · rw [hs, hsent, CycleState.events_step, persisted_append, countUrl_append]
    have hset := List.sum_map_set (fun w => countUrl u w.pending) st.workers k w r.1 hw
    simp only [pendingCount]
    simp only [ho.pending_eq.1] at hset
    omega

theorem sentNews_count (parseRFC1123 : String → Option Time) (u : String) (sched : List Nat)
    (st : CycleState) :
    countUrl u (sentNews parseRFC1123 sched st) +
        pendingCount u (runSchedule parseRFC1123 sched st).workers +
        countUrl u (persisted st.events) =
      pendingCount u st.workers +
        countUrl u (persisted (runSchedule parseRFC1123 sched st).events) := by
  induction sched generalizing st with
  | nil => simp [sentNews, runSchedule, countUrl]
  | cons k rest ih =>
    have h1 := stepAt_count parseRFC1123 u k st
    have h2 := ih (stepAt parseRFC1123 k st)
    rw [runSchedule_cons]
    simp only [sentNews, countUrl_append]
    omega

/-- The messages handed to Kafka during a schedule are the messages of the rows with which
`sendToKafka` is called. -/
theorem sentNews_published (parseRFC1123 : String → Option Time) (sched : List Nat)
    (st : CycleState) :
    published (runSchedule parseRFC1123 sched st).events =
      published st.events ++ (sentNews parseRFC1123 sched st).map kafkaMessage := by
  induction sched generalizing st with
  | nil => simp [sentNews, runSchedule]
  | cons k rest ih =>
    rw [runSchedule_cons, ih, sentNews, List.map_append, ← List.append_assoc]
    congr 1
    rcases stepAt_cases parseRFC1123 k st with ⟨hs, hsent⟩ | ⟨w, r, hw, hsent, ho, hs⟩
    · rw [hs, hsent]; simp
    · rw [hs, hsent, CycleState.events_step, published_append, ho.pending_eq.2]

/-! ## A listed url ends up in the table -/

theorem List.getElem?_set_cases {α : Type} {l : List α} {k j : Nat} {a b c : α}
    (hk : l[k]? = some a) (h : (l.set k b)[j]? = some c) :
    (j = k ∧ c = b) ∨ (j ≠ k ∧ l[j]? = some c) := by
  by_cases hjk : j = k
  · subst hjk
    rw [List.getElem?_set_self (List.getElem?_eq_some.mp hk).1] at h
    exact Or.inl ⟨rfl, (Option.some.inj h).symm⟩
  · rw [List.getElem?_set_ne (Ne.symm hjk)] at h
    exact Or.inr ⟨hjk, h⟩

/-- What a step of a worker keeps and establishes. -/
theorem StepOutcome.live_facts {parseRFC1123 : String → Option Time} {w : Worker} {db : DB}
    {r : Worker × DB × List Event} (h : StepOutcome parseRFC1123 w db r) :
    r.1.env = w.env ∧ (∀ v ∈ db.urls, v ∈ r.2.1.urls) ∧
      (∀ row item rest, r.1.pc = .publish row → r.1.items = item :: rest →
        item.Link ∈ r.2.1.urls) ∧
      (∀ u, (w.env w.idx).createErr = false →
        (∀ row item rest, w.pc = .publish row → w.items = item :: rest → item.Link ∈ db.urls) →
        (∃ item ∈ w.items, item.wellFormed ∧ item.Link = u) →
        u ∈ r.2.1.urls ∨ ∃ item ∈ r.1.items, item.wellFormed ∧ item.Link = u) ∧
      ((w.env w.idx).createErr = false →
        ∀ e ∈ r.2.2, ∀ n err, e.op = .create n (some err) → err = .duplicate) := by
  cases h with
  | skip item rest hi hpc hm =>
    refine ⟨rfl, fun v hv => hv, fun row i' r' hp => by simp at hp, ?_, by simp⟩
    rintro u _ _ ⟨it, hit, hw, rfl⟩
    rw [hi, List.mem_cons] at hit
    rcases hit with rfl | hit
    · exact absurd hw (by unfold Item.wellFormed; tauto)
    · exact Or.inr ⟨it, hit, hw, rfl⟩
  | known item rest hi hpc hw hf =>
    refine ⟨rfl, fun v hv => hv, fun row i' r' hp => by simp at hp, ?_, by simp⟩
    rintro u _ _ ⟨it, hit, hw', rfl⟩
    rw [hi, List.mem_cons] at hit
    rcases hit with rfl | hit
    · exact Or.inl (lookupFound_mem_urls hf)
    · exact Or.inr ⟨it, hit, hw', rfl⟩
  | miss item rest hi hpc hw hf =>
    refine ⟨rfl, fun v hv => hv, fun row i' r' hp => by simp at hp, ?_, by simp⟩
    rintro u _ _ hex
    exact Or.inr hex
  | rejected item rest hi hpc e he =>
    refine ⟨rfl, fun v hv => hv, fun row i' r' hp => by simp at hp, ?_, ?_⟩
    · rintro u hc _ ⟨it, hit, hw', rfl⟩
      rcases he with ⟨_, hc'⟩ | ⟨_, _, hd⟩
      · rw [hc] at hc'; exact absurd hc' (by simp)
      · rw [hi, List.mem_cons] at hit
        rcases hit with rfl | hit
        · exact Or.inl hd
        · exact Or.inr ⟨it, hit, hw', rfl⟩
    · intro hc ev hev n err hop
      rcases he with ⟨_, hc'⟩ | ⟨rfl, _, _⟩
      · rw [hc] at hc'; exact absurd hc' (by simp)
      · simp only [List.mem_singleton] at hev
        subst hev
        simp only [Op.create.injEq, Option.some.injEq] at hop
        exact hop.2.symm
  | saved item rest hi hpc hc hn =>
    refine ⟨rfl, fun v hv => ?_, fun row i' r' _ hitems => ?_, ?_, ?_⟩
    · rw [DB.urls_insertedDB]; exact List.mem_append_left _ hv
    · have : w.items = i' :: r' := hitems
      rw [hi] at this
      cases this
      rw [DB.urls_insertedDB]
      simp
    · rintro u _ _ hex
      exact Or.inr hex
    · intro _ ev hev n err hop
      simp only [List.mem_singleton] at hev
      subst hev
      simp at hop
  | sent item rest hi row hpc =>
    refine ⟨rfl, fun v hv => hv, fun row' i' r' hp => by simp at hp, ?_, ?_⟩
    · rintro u _ hpub ⟨it, hit, hw', rfl⟩
      rw [hi, List.mem_cons] at hit
      rcases hit with rfl | hit
      · exact Or.inl (hpub row it rest hpc hi)
      · exact Or.inr ⟨it, hit, hw', rfl⟩
    · intro _ ev hev n err hop
      simp only [sendToKafka, List.mem_singleton] at hev
      subst hev
      simp at hop

/-- Every turn preserves `live`. -/
theorem stepAt_live (parseRFC1123 : String → Option Time) (u : String) (k : Nat)
    (st : CycleState) (h : st.live u) : (stepAt parseRFC1123 k st).live u := by
  rcases stepAt_cases parseRFC1123 k st with ⟨hs, _⟩ | ⟨w, r, hw, _, ho, hs⟩
  · rw [hs]; exact h
  · rw [hs]
    obtain ⟨henv, hpub, hu, hdup⟩ := h
    obtain ⟨fenv, fmono, fpub, fu, fdup⟩ := ho.live_facts
    have hwenv := henv k w hw
    refine ⟨?_, ?_, ?_, ?_⟩
    · intro j w' hj i
      rcases List.getElem?_set_cases hw hj with ⟨_, rfl⟩ | ⟨_, hj'⟩
      · rw [fenv]; exact hwenv i
      · exact henv j w' hj' i
    · intro j w' hj row item rest hpc hitems
      rcases List.getElem?_set_cases hw hj with ⟨_, rfl⟩ | ⟨_, hj'⟩
      · exact fpub row item rest hpc hitems
      · exact fmono _ (hpub j w' hj' row item rest hpc hitems)
    · rcases hu with hu | ⟨j, w', hj, hex⟩
      · exact Or.inl (fmono u hu)
      · by_cases hjk : j = k
        · subst hjk
          rw [hw] at hj
          cases hj
          rcases fu u (hwenv w.idx) (hpub j w hw) hex with h1 | h2
          · exact Or.inl h1
          · refine Or.inr ⟨j, r.1, ?_, h2⟩
            exact List.getElem?_set_self (List.getElem?_eq_some.mp hw).1
        · refine Or.inr ⟨j, w', ?_, hex⟩
          rw [List.getElem?_set_ne (Ne.symm hjk)]
          exact hj
    · intro e he n err hop
      rw [CycleState.events_step, List.mem_append] at he
      rcases he with he | he
      · exact hdup e he n err hop
      · exact fdup (hwenv w.idx) e he n err hop

theorem countUrl_eq_count (u : String) (rows : List News) :
    countUrl u rows = (rows.map News.URL).count u := by
  induction rows with
  | nil => rfl
  | cons n rest ih =>
    unfold countUrl at ih ⊢
    by_cases h : n.URL = u
    · simp [List.filter_cons, h, ih]
    · have h' : ¬ (n.URL == u) = true := by simpa using h
      simp [List.filter_cons, h, List.count_cons, h', ih]

theorem Worker.start_facts (xmlDecode : String → Option RSS) (s : Source) :
    (Worker.start xmlDecode s).env = s.env ∧ (Worker.start xmlDecode s).pc = .lookup := by
  unfold Worker.start
  cases s.fetched with
  | netError => exact ⟨rfl, rfl⟩
  | response status body =>
    dsimp only
    cases xmlDecode body <;> exact ⟨rfl, rfl⟩

theorem launch_mem (xmlDecode : String → Option RSS) (sources : List Source) (w : Worker) :
    w ∈ launch xmlDecode sources ↔
      ∃ s ∈ sources, s.url ≠ "" ∧ Worker.start xmlDecode s = w := by
  simp [launch, List.mem_map, List.mem_filter, and_assoc]

theorem pendingCount_launch (xmlDecode : String → Option RSS) (sources : List Source)
    (u : String) : pendingCount u (launch xmlDecode sources) = 0 := by
  unfold pendingCount
  apply List.sum_eq_zero
  intro x hx
  obtain ⟨w, hw, rfl⟩ := List.mem_map.mp hx
  obtain ⟨s, _, _, rfl⟩ := (launch_mem xmlDecode sources w).mp hw
  simp [Worker.pending, (Worker.start_facts xmlDecode s).2, countUrl]

theorem pendingCount_of_complete (u : String) (st : CycleState) (h : st.complete) :
    pendingCount u st.workers = 0 := by
  unfold pendingCount
  apply List.sum_eq_zero
  intro x hx
  obtain ⟨w, hw, rfl⟩ := List.mem_map.mp hx
  have hfin := h w hw
  simp only [Worker.finished, List.isEmpty_iff] at hfin
  simp [Worker.pending, hfin, countUrl]

/-! ## Two sources with the same new url -/

/-- C12: sources racing on the same new url. Take a url `u` that is not in the table.
Under every interleaving of the workers of a cycle, finished or not, at most one row with
url `u` is in the table, the rows with url `u` in the table are those inserted during the
cycle, the messages handed to Kafka are the messages of the rows with which `sendToKafka`
is called, and `sendToKafka` is called at most once with a row of url `u`. When moreover
some source with a non-empty url (two of them, for example) lists a well-formed item with
link `u`, no insert fails for a reason other than the unique index and the cycle has
completed, exactly one row with url `u` is in the table, `sendToKafka` has been called
exactly once for it, and every insert that failed was rejected as a duplicate. -/
theorem racing_sources_store_once (xmlDecode : String → Option RSS)
    (parseRFC1123 : String → Option Time) (sources : List Source) (sched : List Nat)
    (db : DB) (u : String) (hnew : u ∉ db.urls) :
    (countUrl u (scrapeAllSources xmlDecode parseRFC1123 sources sched db).db.rows ≤ 1 ∧
        countUrl u (scrapeAllSources xmlDecode parseRFC1123 sources sched db).db.rows =
          countUrl u
            (persisted (scrapeAllSources xmlDecode parseRFC1123 sources sched db).events) ∧
        published (scrapeAllSources xmlDecode parseRFC1123 sources sched db).events =
          (sendToKafkaCalls xmlDecode parseRFC1123 sources sched db).map kafkaMessage ∧
        countUrl u (sendToKafkaCalls xmlDecode parseRFC1123 sources sched db) ≤ 1) ∧
      ((∃ s ∈ sources, s.url ≠ "" ∧
          ∃ item ∈ (Worker.start xmlDecode s).items, item.wellFormed ∧ item.Link = u) →
        (∀ s ∈ sources, ∀ i, (s.env i).createErr = false) →
        (scrapeAllSources xmlDecode parseRFC1123 sources sched db).complete →
        countUrl u (scrapeAllSources xmlDecode parseRFC1123 sources sched db).db.rows = 1 ∧
          countUrl u (sendToKafkaCalls xmlDecode parseRFC1123 sources sched db) = 1 ∧
          ∀ e ∈ (scrapeAllSources xmlDecode parseRFC1123 sources sched db).events,
            ∀ n err, e.op = .create n (some err) → err = .duplicate) := by
  have hrun : scrapeAllSources xmlDecode parseRFC1123 sources sched db =
      runSchedule parseRFC1123 sched
        { workers := launch xmlDecode sources, db := db, trace := [] } := rfl
  have hrows : (scrapeAllSources xmlDecode parseRFC1123 sources sched db).rowsFrom db := by
    rw [hrun]
    refine runSchedule_induction parseRFC1123 (fun st => st.rowsFrom db)
      (fun k st h => stepAt_rowsFrom parseRFC1123 db k st h) sched _ ?_
    simp [CycleState.rowsFrom, CycleState.events, persisted]
  have hcount := sentNews_count parseRFC1123 u sched
    { workers := launch xmlDecode sources, db := db, trace := [] }
  rw [← hrun, pendingCount_launch] at hcount
  have hzero : ∀ ws : List Worker,
      countUrl u (persisted (CycleState.events ⟨ws, db, []⟩)) = 0 := by
    intro ws
    simp [CycleState.events, persisted, countUrl]
  rw [hzero] at hcount
  have hsent : sentNews parseRFC1123 sched
      { workers := launch xmlDecode sources, db := db, trace := [] } =
      sendToKafkaCalls xmlDecode parseRFC1123 sources sched db := rfl
  rw [hsent] at hcount
  obtain ⟨hr, hnodup, _⟩ := hrows
  have hold : countUrl u db.rows = 0 := by
    rw [countUrl_eq_count]
    exact List.count_eq_zero_of_not_mem hnew
  have hdb : countUrl u (scrapeAllSources xmlDecode parseRFC1123 sources sched db).db.rows =
      countUrl u
        (persisted (scrapeAllSources xmlDecode parseRFC1123 sources sched db).events) := by
    rw [hr, countUrl_append, hold, Nat.zero_add]
  have hle : countUrl u
      (persisted (scrapeAllSources xmlDecode parseRFC1123 sources sched db).events) ≤ 1 := by
    rw [countUrl_eq_count]
    exact List.nodup_iff_count_le_one.mp hnodup u
  have hpub := sentNews_published parseRFC1123 sched
    { workers := launch xmlDecode sources, db := db, trace := [] }
  rw [← hrun, hsent] at hpub
  refine ⟨⟨hdb ▸ hle, hdb, by simpa [CycleState.events, published] using hpub, by omega⟩, ?_⟩
  intro hlisted henv hcomplete
  have hlive : (scrapeAllSources xmlDecode parseRFC1123 sources sched db).live u := by
    rw [hrun]
    refine runSchedule_induction parseRFC1123 (fun st => st.live u)
      (fun k st h => stepAt_live parseRFC1123 u k st h) sched _ ⟨?_, ?_, ?_, ?_⟩
    · intro j w hj i
      obtain ⟨s, hs, _, rfl⟩ := (launch_mem xmlDecode sources w).mp (List.mem_iff_getElem?.mpr ⟨j, hj⟩)
      rw [(Worker.start_facts xmlDecode s).1]
      exact henv s hs i
    · intro j w hj row item rest hpc
      obtain ⟨s, _, _, rfl⟩ := (launch_mem xmlDecode sources w).mp (List.mem_iff_getElem?.mpr ⟨j, hj⟩)
      rw [(Worker.start_facts xmlDecode s).2] at hpc
      cases hpc
    · obtain ⟨s, hs, hurl, hex⟩ := hlisted
      have hmem : Worker.start xmlDecode s ∈ launch xmlDecode sources :=
        (launch_mem xmlDecode sources _).mpr ⟨s, hs, hurl, rfl⟩
      obtain ⟨j, hj⟩ := List.mem_iff_getElem?.mp hmem
      exact Or.inr ⟨j, _, hj, hex⟩
    · intro e he
      simp [CycleState.events] at he
  obtain ⟨_, _, hu, hdup⟩ := hlive
  have hin : u ∈ (scrapeAllSources xmlDecode parseRFC1123 sources sched db).db.urls := by
    rcases hu with hu | ⟨j, w, hj, item, hitem, _⟩
    · exact hu
    · have hfin := hcomplete w (List.mem_iff_getElem?.mpr ⟨j, hj⟩)
      simp only [Worker.finished, List.isEmpty_iff] at hfin
      rw [hfin] at hitem
      cases hitem
  have hpos : 1 ≤ countUrl u
      (scrapeAllSources xmlDecode parseRFC1123 sources sched db).db.rows := by
    rw [countUrl_eq_count]
    exact List.one_le_count_iff.mpr hin
  have hpend := pendingCount_of_complete u _ hcomplete
  rw [hpend] at hcount
  refine ⟨by omega, by omega, hdup⟩

/-- Two workers race on the sample feed from an empty table: one row with the new url is
stored. -/
theorem racing_sources_store_once_witness :
    "https://a/2" ∉ emptyDB.urls ∧
      (scrapeAllSources sampleDecode sampleParse [sampleSource, sampleSource]
        [0, 1, 0, 1, 0, 1, 0, 1, 0, 1, 0, 1, 0, 1] emptyDB).complete ∧
      countUrl "https://a/2" (scrapeAllSources sampleDecode sampleParse
        [sampleSource, sampleSource] [0, 1, 0, 1, 0, 1, 0, 1, 0, 1, 0, 1, 0, 1] emptyDB).db.rows
        = 1 :=
  ⟨by decide, by decide,
    ((racing_sources_store_once sampleDecode sampleParse [sampleSource, sampleSource]
      [0, 1, 0, 1, 0, 1, 0, 1, 0, 1, 0, 1, 0, 1] emptyDB "https://a/2" (by decide)).2
      (by decide)
      (fun s hs i => by
        simp only [List.mem_cons, List.mem_singleton, List.not_mem_nil, or_false, or_self] at hs
        subst hs
        rfl)
      (by decide)).1⟩

/-! ## Runs from tables that agree up to ids -/

theorem scrapeItemsSeq_zero (parseRFC1123 : String → Option Time) (source : String)
    (env : Nat → ItemEnv) (i : Nat) (items : List Item) (db : DB) :
    scrapeItemsSeq parseRFC1123 source env (fun _ => 0) i items db =
      scrapeItems parseRFC1123 source env i items db := by
  induction items generalizing i db with
  | nil => rfl
  | cons item rest ih =>
    have h : processItemSeq parseRFC1123 source 0 i item (env i) db =
        processItem parseRFC1123 source i item (env i) db := by
      unfold processItemSeq
      dsimp only
      split
      · rfl
      · rfl
    simp only [scrapeItemsSeq, scrapeItems, h, ih]

/-- With a store that consumes no key on a failed insert, `scrapeSourceSeq` is
`scrapeSource`. -/
theorem scrapeSourceSeq_zero (xmlDecode : String → Option RSS)
    (parseRFC1123 : String → Option Time) (fetched : FetchResult) (env : Nat → ItemEnv)
    (db : DB) :
    scrapeSourceSeq xmlDecode parseRFC1123 fetched env (fun _ => 0) db =
      scrapeSource xmlDecode parseRFC1123 fetched env db := by
  cases fetched with
  | netError => rfl
  | response status body =>
    rcases hd : xmlDecode body with _ | rss
    · simp [scrapeSourceSeq, scrapeSource, hd]
    · simp only [scrapeSourceSeq, scrapeSource, hd]
      exact scrapeItemsSeq_zero parseRFC1123 _ env 0 _ db

theorem DB.sameRows.urls_eq {a b : DB} (h : a.sameRows b) : a.urls = b.urls := by
  have e : ∀ db : DB, db.urls = (db.rows.map News.withoutID).map News.URL := by
    intro db
    simp [DB.urls, List.map_map, Function.comp_def, News.withoutID]
  rw [e, e, h]

theorem DB.sameRows.lookupFound_eq {a b : DB} (h : a.sameRows b) (url : String)
    (lookupErr : Bool) : lookupFound a url lookupErr = lookupFound b url lookupErr := by
  have e : ∀ db : DB, (db.first url).isSome =
      (db.rows.map News.withoutID).any
        (fun n => decide (n.URL = url) && n.DeletedAt.isNone) := by
    intro db
    rw [Bool.eq_iff_iff]
    simp [DB.first, News.withoutID]
  unfold lookupFound
  rw [e, e, h]

theorem Op.createFailed_withoutID (op : Op) : op.withoutID.createFailed = op.createFailed := by
  cases op with
  | lookup url found => rfl
  | create news err => cases err <;> rfl
  | publish msg ok => cases ok <;> rfl

theorem Op.created_withoutID (op : Op) :
    op.withoutID.created = op.created.map News.withoutID := by
  cases op with
  | lookup url found => rfl
  | create news err => cases err <;> rfl
  | publish msg ok => rfl

/-- Traces that agree up to ids insert the same rows up to ids. -/
theorem persisted_withoutID (t : List Event) :
    (persisted t).map News.withoutID = ((ops t).map Op.withoutID).filterMap Op.created := by
  induction t with
  | nil => rfl
  | cons e t ih =>
    simp only [ops, List.map_cons, List.filterMap_cons, Op.created_withoutID] at ih ⊢
    unfold persisted at ih ⊢
    simp only [List.filterMap_cons]
    cases h : e.op.created with
    | none => simpa using ih
    | some n => simpa using ih

theorem anyCreateFailed_withoutID (t : List Event) :
    t.any (fun e => e.op.createFailed) = ((ops t).map Op.withoutID).any Op.createFailed := by
  induction t with
  | nil => rfl
  | cons e t ih =>
    simp only [ops, List.map_cons, List.any_cons, Op.createFailed_withoutID] at ih ⊢
    rw [ih]

/-- One iteration from two tables that agree up to ids: the tables agree up to ids
afterwards, and the accesses are the same up to ids. -/
theorem processItem_sameRows (parseRFC1123 : String → Option Time) (source : String)
    (i j : Nat) (item : Item) (env : ItemEnv) (a b : DB) (h : a.sameRows b) :
    (processItem parseRFC1123 source i item env a).1.sameRows
        (processItem parseRFC1123 source j item env b).1 ∧
      (ops (processItem parseRFC1123 source i item env a).2).map Op.withoutID =
        (ops (processItem parseRFC1123 source j item env b).2).map Op.withoutID := by
  unfold processItem
  by_cases hm : item.Link = "" ∨ item.Title = ""
  · rw [if_pos hm, if_pos hm]
    exact ⟨h, rfl⟩
  · rw [if_neg hm, if_neg hm, h.lookupFound_eq]
    by_cases hf : lookupFound b item.Link env.lookupErr = true
    · rw [if_pos hf, if_pos hf]
      exact ⟨h, rfl⟩
    · rw [if_neg hf, if_neg hf]
      unfold DB.create
      rw [h.urls_eq]
      dsimp only
      by_cases hc : env.createErr = true
      · rw [if_pos hc, if_pos hc]
        exact ⟨h, rfl⟩
      · rw [if_neg hc, if_neg hc]
        by_cases hd : (mkNews parseRFC1123 source item env.now).URL ∈ b.urls
        · rw [if_pos hd, if_pos hd]
          exact ⟨h, rfl⟩
        · rw [if_neg hd, if_neg hd]
          refine ⟨?_, rfl⟩
          unfold DB.sameRows at h ⊢
          simp only [List.map_append, h, List.map_cons, List.map_nil]
          rfl

theorem DB.sameRows_skipKeys_left {a b : DB} (n : Nat) (h : a.sameRows b) :
    (a.skipKeys n).sameRows b := h

theorem DB.sameRows_skipKeys_right {a b : DB} (n : Nat) (h : a.sameRows b) :
    a.sameRows (b.skipKeys n) := h

theorem processItemSeq_trace (parseRFC1123 : String → Option Time) (source : String)
    (skip : Nat) (i : Nat) (item : Item) (env : ItemEnv) (db : DB) :
    (processItemSeq parseRFC1123 source skip i item env db).2 =
        (processItem parseRFC1123 source i item env db).2 ∧
      (processItemSeq parseRFC1123 source skip i item env db).1.rows =
        (processItem parseRFC1123 source i item env db).1.rows := by
  unfold processItemSeq
  dsimp only
  split <;> exact ⟨rfl, rfl⟩

/-- One iteration against key-consuming stores, from two tables that agree up to ids. -/
theorem processItemSeq_sameRows (parseRFC1123 : String → Option Time) (source : String)
    (skip skip' : Nat) (i j : Nat) (item : Item) (env : ItemEnv) (a b : DB)
    (h : a.sameRows b) :
    (processItemSeq parseRFC1123 source skip i item env a).1.sameRows
        (processItemSeq parseRFC1123 source skip' j item env b).1 ∧
      (ops (processItemSeq parseRFC1123 source skip i item env a).2).map Op.withoutID =
        (ops (processItemSeq parseRFC1123 source skip' j item env b).2).map Op.withoutID := by
  obtain ⟨h1, h2⟩ := processItem_sameRows parseRFC1123 source i j item env a b h
  obtain ⟨ta, ra⟩ := processItemSeq_trace parseRFC1123 source skip i item env a
  obtain ⟨tb, rb⟩ := processItemSeq_trace parseRFC1123 source skip' j item env b
  refine ⟨?_, by rw [ta, tb]; exact h2⟩
  unfold DB.sameRows at h1 ⊢
  rw [ra, rb]
  exact h1

/-- The loop against key-consuming stores, from two tables that agree up to ids and with
the same world for each item, whatever the item indices and the keys consumed. -/
theorem scrapeItemsSeq_sameRows (parseRFC1123 : String → Option Time) (source : String)
    (env env' : Nat → ItemEnv) (skip skip' : Nat → Nat) (i j : Nat) (items : List Item)
    (a b : DB) (h : a.sameRows b)
    (henv : ∀ t, t < items.length → env' (j + t) = env (i + t)) :
    (scrapeItemsSeq parseRFC1123 source env skip i items a).1.sameRows
        (scrapeItemsSeq parseRFC1123 source env' skip' j items b).1 ∧
      (ops (scrapeItemsSeq parseRFC1123 source env skip i items a).2).map Op.withoutID =
        (ops (scrapeItemsSeq parseRFC1123 source env' skip' j items b).2).map Op.withoutID := by
  induction items generalizing i j a b with
  | nil => exact ⟨h, rfl⟩
  | cons item rest ih =>
    have he : env' j = env i := by simpa using henv 0 (by simp)
    obtain ⟨h1, h2⟩ := processItemSeq_sameRows parseRFC1123 source (skip i) (skip' j) i j item
      (env i) a b h
    obtain ⟨h3, h4⟩ := ih (i + 1) (j + 1) _ _ h1 (fun t ht => by
      have := henv (t + 1) (by simp only [List.length_cons]; omega)
      rw [show j + 1 + t = j + (t + 1) by omega, show i + 1 + t = i + (t + 1) by omega]
      exact this)
    simp only [scrapeItemsSeq, he, ops_append, List.map_append]
    exact ⟨h3, by rw [h2, h4]⟩

theorem scrapeSourceSeq_response (xmlDecode : String → Option RSS)
    (parseRFC1123 : String → Option Time) (status : Nat) (body : String) (rss : RSS)
    (env : Nat → ItemEnv) (skip : Nat → Nat) (db : DB) (hd : xmlDecode body = some rss) :
    scrapeSourceSeq xmlDecode parseRFC1123 (.response status body) env skip db =
      scrapeItemsSeq parseRFC1123 rss.Channel.Title env skip 0 rss.Channel.Items db := by
  simp [scrapeSourceSeq, hd]

theorem scrapeItemsSeq_append (parseRFC1123 : String → Option Time) (source : String)
    (env : Nat → ItemEnv) (skip : Nat → Nat) (i : Nat) (a b : List Item) (db : DB) :
    scrapeItemsSeq parseRFC1123 source env skip i (a ++ b) db =
      ((scrapeItemsSeq parseRFC1123 source env skip (i + a.length) b
          (scrapeItemsSeq parseRFC1123 source env skip i a db).1).1,
        (scrapeItemsSeq parseRFC1123 source env skip i a db).2 ++
          (scrapeItemsSeq parseRFC1123 source env skip (i + a.length) b
            (scrapeItemsSeq parseRFC1123 source env skip i a db).1).2) := by
  induction a generalizing i db with
  | nil => simp [scrapeItemsSeq]
  | cons x a ih =>
    have step : ∀ l, scrapeItemsSeq parseRFC1123 source env skip i (x :: l) db =
        ((scrapeItemsSeq parseRFC1123 source env skip (i + 1) l
            (processItemSeq parseRFC1123 source (skip i) i x (env i) db).1).1,
          (processItemSeq parseRFC1123 source (skip i) i x (env i) db).2 ++
            (scrapeItemsSeq parseRFC1123 source env skip (i + 1) l
              (processItemSeq parseRFC1123 source (skip i) i x (env i) db).1).2) := fun l => rfl
    have harith : i + 1 + a.length = i + (a.length + 1) := by omega
    rw [List.cons_append, step, step, ih, List.length_cons, harith, List.append_assoc]

/-- The loop against a key-consuming store at the item that follows `pre`. -/
theorem scrapeItemsSeq_split (parseRFC1123 : String → Option Time) (source : String)
    (env : Nat → ItemEnv) (skip : Nat → Nat) (pre : List Item) (x : Item)
    (post : List Item) (db : DB) :
    scrapeItemsSeq parseRFC1123 source env skip 0 (pre ++ x :: post) db =
      ((scrapeItemsSeq parseRFC1123 source env skip (pre.length + 1) post
          (processItemSeq parseRFC1123 source (skip pre.length) pre.length x (env pre.length)
            (scrapeItemsSeq parseRFC1123 source env skip 0 pre db).1).1).1,
        (scrapeItemsSeq parseRFC1123 source env skip 0 pre db).2 ++
          ((processItemSeq parseRFC1123 source (skip pre.length) pre.length x (env pre.length)
            (scrapeItemsSeq parseRFC1123 source env skip 0 pre db).1).2 ++
          (scrapeItemsSeq parseRFC1123 source env skip (pre.length + 1) post
            (processItemSeq parseRFC1123 source (skip pre.length) pre.length x
              (env pre.length) (scrapeItemsSeq parseRFC1123 source env skip 0 pre db).1).1).2)) := by
  rw [scrapeItemsSeq_append]
  simp only [Nat.zero_add, scrapeItemsSeq]

/-- Every access of a run against a key-consuming store is tagged with the index of an
item of the feed. -/
theorem scrapeItemsSeq_event_item (parseRFC1123 : String → Option Time) (source : String)
    (env : Nat → ItemEnv) (skip : Nat → Nat) (i : Nat) (items : List Item) (db : DB) :
    ∀ e ∈ (scrapeItemsSeq parseRFC1123 source env skip i items db).2,
      i ≤ e.item ∧ e.item < i + items.length := by
  induction items generalizing i db with
  | nil => simp [scrapeItemsSeq]
  | cons item rest ih =>
    intro e he
    simp only [scrapeItemsSeq, List.mem_append, List.length_cons] at he ⊢
    rcases he with he | he
    · rw [(processItemSeq_trace parseRFC1123 source (skip i) i item (env i) db).1] at he
      have := ((processItem_outcome parseRFC1123 source i item (env i) db).event_item e he).1
      omega
    · have := ih (i + 1) _ e he
      omega

/-- One message is handed to Kafka per inserted row, also against a key-consuming
store. -/
theorem scrapeItemsSeq_published (parseRFC1123 : String → Option Time) (source : String)
    (env : Nat → ItemEnv) (skip : Nat → Nat) (i : Nat) (items : List Item) (db : DB) :
    published (scrapeItemsSeq parseRFC1123 source env skip i items db).2 =
      (persisted (scrapeItemsSeq parseRFC1123 source env skip i items db).2).map
        kafkaMessage := by
  induction items generalizing i db with
  | nil => rfl
  | cons item rest ih =>
    simp only [scrapeItemsSeq, published_append, persisted_append, List.map_append, ih]
    congr 1
    rw [(processItemSeq_trace parseRFC1123 source (skip i) i item (env i) db).1]
    have ho := processItem_outcome parseRFC1123 source i item (env i) db
    generalize processItem parseRFC1123 source i item (env i) db = r at ho
    cases ho <;> simp [persisted, published, Op.created, Op.message]

/-- C10: a failed insert skips that one item. Take a fetched feed whose item `x`, at index
`pre.length`, has its insert fail (refused by the unique index or for any other reason),
against a store that may consume keys on a failed insert (`skip`, the keys consumed, is
arbitrary: 1 for PostgreSQL on a unique violation, 0 for a store that consumes none). No
message is handed to Kafka for `x`; the iteration of `x` leaves the rows of the table as
they were and only advances the key generator by the keys consumed; and the rest of the
run is the run on the feed without `x`, up to the ids the store assigns: the final tables
have the same rows, the accesses made for the other items are the same, the rows inserted
are the same, and in both runs the messages published are the messages of the rows
inserted. -/
theorem persist_failure_skips_item (xmlDecode : String → Option RSS)
    (parseRFC1123 : String → Option Time) (status status' : Nat) (body body' : String)
    (rss rss' : RSS) (env : Nat → ItemEnv) (skip skip' : Nat → Nat) (db : DB)
    (pre : List Item) (x : Item) (post : List Item)
    (hd : xmlDecode body = some rss) (hd' : xmlDecode body' = some rss')
    (htitle : rss'.Channel.Title = rss.Channel.Title)
    (hitems : rss.Channel.Items = pre ++ x :: post)
    (hitems' : rss'.Channel.Items = pre ++ post)
    (hfail : ∃ e ∈ (scrapeSourceSeq xmlDecode parseRFC1123 (.response status body) env skip
      db).2, e.item = pre.length ∧ e.op.createFailed = true) :
    (∀ e ∈ (scrapeSourceSeq xmlDecode parseRFC1123 (.response status body) env skip db).2,
        e.item = pre.length → e.op.message = none) ∧
      (processItemSeq parseRFC1123 rss.Channel.Title (skip pre.length) pre.length x
          (env pre.length)
          (scrapeItemsSeq parseRFC1123 rss.Channel.Title env skip 0 pre db).1).1 =
        (scrapeItemsSeq parseRFC1123 rss.Channel.Title env skip 0 pre db).1.skipKeys
          (skip pre.length) ∧
      (scrapeSourceSeq xmlDecode parseRFC1123 (.response status body) env skip db).1.sameRows
        (scrapeSourceSeq xmlDecode parseRFC1123 (.response status' body')
          (dropEnv pre.length env) skip' db).1 ∧
      (ops ((scrapeSourceSeq xmlDecode parseRFC1123 (.response status body) env skip db).2.filter
          (fun e => decide (e.item ≠ pre.length)))).map Op.withoutID =
        (ops (scrapeSourceSeq xmlDecode parseRFC1123 (.response status' body')
          (dropEnv pre.length env) skip' db).2).map Op.withoutID ∧
      (persisted (scrapeSourceSeq xmlDecode parseRFC1123 (.response status body) env skip
          db).2).map News.withoutID =
        (persisted (scrapeSourceSeq xmlDecode parseRFC1123 (.response status' body')
          (dropEnv pre.length env) skip' db).2).map News.withoutID ∧
      published (scrapeSourceSeq xmlDecode parseRFC1123 (.response status body) env skip db).2 =
        (persisted (scrapeSourceSeq xmlDecode parseRFC1123 (.response status body) env skip
          db).2).map kafkaMessage ∧
      published (scrapeSourceSeq xmlDecode parseRFC1123 (.response status' body')
          (dropEnv pre.length env) skip' db).2 =
        (persisted (scrapeSourceSeq xmlDecode parseRFC1123 (.response status' body')
          (dropEnv pre.length env) skip' db).2).map kafkaMessage := by
  rw [scrapeSourceSeq_response _ _ _ _ _ _ _ _ hd] at hfail ⊢
  rw [scrapeSourceSeq_response _ _ _ _ _ _ _ _ hd']
  have hpubFull := scrapeItemsSeq_published parseRFC1123 rss.Channel.Title env skip 0
    rss.Channel.Items db
  have hpubWithout := scrapeItemsSeq_published parseRFC1123 rss'.Channel.Title
    (dropEnv pre.length env) skip' 0 rss'.Channel.Items db
  rw [hitems, scrapeItemsSeq_split] at hfail hpubFull ⊢
  rw [hitems', htitle, scrapeItemsSeq_append, Nat.zero_add] at hpubWithout ⊢
  have hpre := scrapeItemsSeq_sameRows parseRFC1123 rss.Channel.Title env
    (dropEnv pre.length env) skip skip' 0 0 pre db db rfl (fun t ht => by
      simp [dropEnv, ht])
  have hbefore : ∀ e ∈ (scrapeItemsSeq parseRFC1123 rss.Channel.Title env skip 0 pre db).2,
      e.item < pre.length := by
    intro e he
    have := scrapeItemsSeq_event_item parseRFC1123 rss.Channel.Title env skip 0 pre db e he
    omega
  have hafter : ∀ db₀, ∀ e ∈ (scrapeItemsSeq parseRFC1123 rss.Channel.Title env skip
      (pre.length + 1) post db₀).2, pre.length < e.item := by
    intro db₀ e he
    have := scrapeItemsSeq_event_item parseRFC1123 rss.Channel.Title env skip
      (pre.length + 1) post db₀ e he
    omega
  generalize scrapeItemsSeq parseRFC1123 rss.Channel.Title env skip 0 pre db = before
    at hfail hbefore hpre hpubFull ⊢
  generalize scrapeItemsSeq parseRFC1123 rss.Channel.Title (dropEnv pre.length env) skip' 0
    pre db = before' at hpre hpubWithout ⊢
  have htrace := processItemSeq_trace parseRFC1123 rss.Channel.Title (skip pre.length)
    pre.length x (env pre.length) before.1
  have ho := processItem_outcome parseRFC1123 rss.Channel.Title pre.length x
    (env pre.length) before.1
  have hx : ∃ err, processItem parseRFC1123 rss.Channel.Title pre.length x (env pre.length)
      before.1 = (before.1, [⟨pre.length, .lookup x.Link false⟩,
        ⟨pre.length, .create (mkNews parseRFC1123 rss.Channel.Title x (env pre.length).now)
          (some err)⟩]) := by
    obtain ⟨e, he, hei, hef⟩ := hfail
    have hex : e ∈ (processItem parseRFC1123 rss.Channel.Title pre.length x (env pre.length)
        before.1).2 := by
      simp only [List.mem_append] at he
      rcases he with he | he | he
      · exact absurd (hbefore e he) (by omega)
      · rw [htrace.1] at he; exact he
      · exact absurd (hafter _ e he) (by omega)
    generalize processItem parseRFC1123 rss.Channel.Title pre.length x (env pre.length)
      before.1 = r at ho hex ⊢
    cases ho with
    | malformed h => simp at hex
    | known hl ht hf => simp at hex; subst hex; simp [Op.createFailed] at hef
    | saved hl ht hf hc hn =>
      simp at hex
      rcases hex with rfl | rfl | rfl <;> simp [Op.createFailed] at hef
    | rejected hl ht hf err herr => exact ⟨err, rfl⟩
  obtain ⟨err, hx⟩ := hx
  have hseq : processItemSeq parseRFC1123 rss.Channel.Title (skip pre.length) pre.length x
      (env pre.length) before.1 = (before.1.skipKeys (skip pre.length),
        [⟨pre.length, .lookup x.Link false⟩,
          ⟨pre.length, .create (mkNews parseRFC1123 rss.Channel.Title x (env pre.length).now)
            (some err)⟩]) := by
    unfold processItemSeq
    rw [hx]
    simp [Op.createFailed]
  rw [hseq] at hpubFull ⊢
  have hpost := scrapeItemsSeq_sameRows parseRFC1123 rss.Channel.Title env
    (dropEnv pre.length env) skip skip' (pre.length + 1) pre.length post
    (before.1.skipKeys (skip pre.length)) before'.1
    (DB.sameRows_skipKeys_left _ hpre.1) (fun t _ => by
      have : ¬ pre.length + t < pre.length := by omega
      simp only [dropEnv, this, if_false]
      congr 1
      omega)
  have hafter' := hafter (before.1.skipKeys (skip pre.length))
  refine ⟨?_, ?_, ?_, ?_, ?_, hpubFull, hpubWithout⟩
  · intro a ha hai
    simp only [List.mem_append] at ha
    rcases ha with ha | ha | ha
    · exact absurd (hbefore a ha) (by omega)
    · simp at ha
      rcases ha with rfl | rfl <;> rfl
    · exact absurd (hafter' a ha) (by omega)
  · rfl
  · exact hpost.1
  · have hkeep : ∀ (t : List Event), (∀ a ∈ t, a.item ≠ pre.length) →
        t.filter (fun a => decide (a.item ≠ pre.length)) = t := by
      intro t ht'
      exact List.filter_eq_self.mpr (fun a ha => by simpa using ht' a ha)
    have h1 := hkeep before.2 (fun a ha => by have := hbefore a ha; omega)
    have h2 := hkeep _ (fun a ha => by have := hafter' a ha; omega)
    simp only [List.filter_append, h1, h2, ops_append, List.map_append, hpre.2, hpost.2]
    simp [ops]
  · simp only [persisted_append, List.map_append, persisted_withoutID, hpre.2, hpost.2]
    simp [ops, Op.withoutID, Op.created]

/-- The sample feed against a table whose `https://a/1` row is soft-deleted, on a store
that consumes a key on a refused insert: the insert of the first item is refused, the new
article gets id 3 instead of the id 2 it gets when the first item is absent, and the two
final tables have the same rows up to these ids. -/
theorem persist_failure_skips_item_witness :
    (∃ e ∈ (scrapeSourceSeq sampleDecode₂ sampleParse (.response 200 "<rss>sample</rss>")
        sampleEnv oneKey deletedDB).2, e.item = 0 ∧ e.op.createFailed = true) ∧
      (scrapeSourceSeq sampleDecode₂ sampleParse (.response 200 "<rss>sample</rss>")
          sampleEnv oneKey deletedDB).1.sameRows
        (scrapeSourceSeq sampleDecode₂ sampleParse (.response 200 "<rss>tail</rss>")
          (dropEnv 0 sampleEnv) oneKey deletedDB).1 ∧
      (persisted (scrapeSourceSeq sampleDecode₂ sampleParse (.response 200 "<rss>sample</rss>")
          sampleEnv oneKey deletedDB).2).map News.ID = [3] ∧
      (persisted (scrapeSourceSeq sampleDecode₂ sampleParse (.response 200 "<rss>tail</rss>")
          (dropEnv 0 sampleEnv) oneKey deletedDB).2).map News.ID = [2] :=
  ⟨by decide, (persist_failure_skips_item sampleDecode₂ sampleParse 200 200
    "<rss>sample</rss>" "<rss>tail</rss>" sampleFeed sampleFeedTail sampleEnv oneKey oneKey
    deletedDB [] ⟨"Old", "", "https://a/1", ""⟩
    [⟨"No link", "", "", ""⟩, ⟨"New", "fresh", "https://a/2", "yesterday"⟩]
    (by decide) (by decide) (by decide) (by decide) (by decide) (by decide)).2.2.1,
    by decide, by decide⟩

end NewsAggregator
